import Mathlib

/-!
Verification of the tenets-server InterLock signaling subsystem.

Shallow embedding of:
- `src/interlock/protocol.ts` — the binary wire codec (12-byte header +
  UTF-8 JSON payload), including executable models of `JSON.stringify`,
  `JSON.parse` (restricted to the integer-number sublanguage the server
  emits) and UTF-8 byte encoding/decoding;
- `src/interlock/tumbler.ts` — whitelist + circuit breaker (hop count,
  TTL, dedup), modelled as explicit state passing;
- `src/interlock/handlers.ts` — per-signal-type dispatch against an
  abstract Evaluator and an explicit pattern store;
- `src/interlock/socket.js` — mesh lifecycle (`close`, heartbeat timer),
  modelled as a small state machine.

JavaScript semantics are modelled explicitly where they matter: truthiness
(`!x` rejects `""`, `0`, `null`, `undefined` and `false`), object spread
and property assignment (update-in-place-or-append), and `Buffer` range
checks (out-of-range writes throw, modelled as `none`).
-/

/-! ## Association lists with JavaScript assignment semantics

`alSet` models `obj[k] = v` / `Map.set`: if the key is present its value is
updated in place (keeping its position), otherwise the pair is appended. -/

def alSet {α : Type} (k : String) (v : α) : List (String × α) → List (String × α)
  | [] => [(k, v)]
  | (k', v') :: rest => if k' = k then (k', v) :: rest else (k', v') :: alSet k v rest

def alGet {α : Type} (k : String) : List (String × α) → Option α
  | [] => none
  | (k', v') :: rest => if k' = k then some v' else alGet k rest

def alHasKey {α : Type} (k : String) (l : List (String × α)) : Bool :=
  l.any (fun kv => kv.1 = k)

/-! ## JSON values

The JSON sublanguage exchanged by the server: numbers are integers (the
payloads the code builds contain no fractional literals). -/

inductive Jval where
  | null
  | bool (b : Bool)
  | num (n : Int)
  | str (s : String)
  | arr (elems : List Jval)
  | obj (members : List (String × Jval))

/-- Keys of an object are pairwise distinct (true of every real JS object). -/
def keysDistinct : List (String × Jval) → Bool
  | [] => true
  | (k, _) :: ms => !(ms.any (fun kv => kv.1 = k)) && keysDistinct ms

mutual
/-- A value is well formed when every object inside it has distinct keys. -/
def wfJ : Jval → Bool
  | .null => true
  | .bool _ => true
  | .num _ => true
  | .str _ => true
  | .arr es => wfArr es
  | .obj ms => keysDistinct ms && wfMems ms
def wfArr : List Jval → Bool
  | [] => true
  | e :: es => wfJ e && wfArr es
def wfMems : List (String × Jval) → Bool
  | [] => true
  | (_, v) :: ms => wfJ v && wfMems ms
end

/-- How `JSON.parse` builds an object: one property assignment per member,
in textual order (later duplicates update earlier positions in place). -/
def mkObj (ms : List (String × Jval)) : List (String × Jval) :=
  ms.foldl (fun acc kv => alSet kv.1 kv.2 acc) []

/-! ## `JSON.stringify`, as a character list -/

def digitChar (d : Nat) : Char := Char.ofNat (48 + d)

/-- Decimal digits of `n`, most significant first (the characters
`String(n)` produces for a natural number). -/
def natChars (n : Nat) : List Char :=
  if n < 10 then [digitChar n] else natChars (n / 10) ++ [digitChar (n % 10)]
termination_by n
decreasing_by exact Nat.div_lt_self (by omega) (by omega)

/-- The characters of a JS integer: optional sign, then decimal digits. -/
def intChars (i : Int) : List Char :=
  if i < 0 then '-' :: natChars i.natAbs else natChars i.natAbs

/-- Lowercase hexadecimal digit, as emitted in control-character escapes. -/
def hexDigitChar (d : Nat) : Char :=
  if d < 10 then Char.ofNat (48 + d) else Char.ofNat (87 + d)

/-- `JSON.stringify` escaping of a single character: `"` and `\` get a
backslash, the five named control characters get their short escapes, any
other control character becomes `\u00xx`, everything else is emitted raw. -/
def jsEscapeChar (c : Char) : List Char :=
  if c = '"' then ['\\', '"']
  else if c = '\\' then ['\\', '\\']
  else if c = Char.ofNat 8 then ['\\', 'b']
  else if c = Char.ofNat 9 then ['\\', 't']
  else if c = Char.ofNat 10 then ['\\', 'n']
  else if c = Char.ofNat 12 then ['\\', 'f']
  else if c = Char.ofNat 13 then ['\\', 'r']
  else if c.toNat < 32 then
    ['\\', 'u', '0', '0', hexDigitChar (c.toNat / 16), hexDigitChar (c.toNat % 16)]
  else [c]

def strBodyChars (s : String) : List Char := s.data.flatMap jsEscapeChar

def quotedChars (s : String) : List Char := '"' :: (strBodyChars s ++ ['"'])

mutual
/-- The characters `JSON.stringify` produces for a value (no whitespace). -/
def serVal : Jval → List Char
  | .null => 'n' :: 'u' :: 'l' :: ['l']
  | .bool true => 't' :: 'r' :: 'u' :: ['e']
  | .bool false => 'f' :: 'a' :: 'l' :: 's' :: ['e']
  | .num n => intChars n
  | .str s => quotedChars s
  | .arr es => '[' :: (serElems es ++ [']'])
  | .obj ms => '\x7b' :: (serMems ms ++ ['\x7d'])
def serElems : List Jval → List Char
  | [] => []
  | e :: es => serVal e ++ serElemsTail es
def serElemsTail : List Jval → List Char
  | [] => []
  | e :: es => ',' :: (serVal e ++ serElemsTail es)
def serMems : List (String × Jval) → List Char
  | [] => []
  | (k, v) :: ms => quotedChars k ++ ':' :: (serVal v ++ serMemsTail ms)
def serMemsTail : List (String × Jval) → List Char
  | [] => []
  | (k, v) :: ms => ',' :: (quotedChars k ++ ':' :: (serVal v ++ serMemsTail ms))
end

def jsStringify (v : Jval) : String := ⟨serVal v⟩

/-! ## `JSON.parse`, as a recursive-descent parser

Faithful to `JSON.parse` on the payloads this server exchanges; stricter on
inputs the server never produces (fractional/exponent numbers and `\u`
escapes denoting unpaired surrogates are rejected rather than parsed). -/

def isWsChar (c : Char) : Bool := c = ' ' || c = Char.ofNat 9 || c = Char.ofNat 10 || c = Char.ofNat 13

def skipWs : List Char → List Char
  | [] => []
  | c :: cs => if isWsChar c then skipWs cs else c :: cs

/-- Split off the leading run of decimal digits. -/
def splitDigits : List Char → List Char × List Char
  | [] => ([], [])
  | c :: cs =>
    if c.isDigit then
      let p := splitDigits cs
      (c :: p.1, p.2)
    else ([], c :: cs)

def digitsVal (ds : List Char) : Nat :=
  ds.foldl (fun acc c => acc * 10 + (c.toNat - 48)) 0

/-- Parse an integer JSON number (optional minus sign, then digits). -/
def parseJNum (cs : List Char) : Option (Int × List Char) :=
  match cs with
  | '-' :: rest =>
    let p := splitDigits rest
    if p.1.isEmpty then none else some (-(digitsVal p.1 : Int), p.2)
  | _ =>
    let p := splitDigits cs
    if p.1.isEmpty then none else some ((digitsVal p.1 : Int), p.2)

def hexCharVal (c : Char) : Option Nat :=
  if 48 ≤ c.toNat ∧ c.toNat ≤ 57 then some (c.toNat - 48)
  else if 97 ≤ c.toNat ∧ c.toNat ≤ 102 then some (c.toNat - 87)
  else if 65 ≤ c.toNat ∧ c.toNat ≤ 70 then some (c.toNat - 55)
  else none

/-- A Unicode scalar value (what a Lean `Char` can carry). -/
def validScalar (n : Nat) : Bool := n < 0xd800 || (0xe000 ≤ n && n < 0x110000)

/-- Body of a JSON string after the opening quote: characters up to the
closing quote, undoing escapes. -/
def parseStrBody : List Char → Option (List Char × List Char)
  | [] => none
  | '"' :: rest => some ([], rest)
  | '\\' :: 'u' :: a :: b :: c :: d :: rest =>
    match hexCharVal a, hexCharVal b, hexCharVal c, hexCharVal d with
    | some va, some vb, some vc, some vd =>
      let n := ((va * 16 + vb) * 16 + vc) * 16 + vd
      if validScalar n then
        (parseStrBody rest).map (fun p => (Char.ofNat n :: p.1, p.2))
      else none
    | _, _, _, _ => none
  | '\\' :: e :: rest =>
    let dec : Option Char :=
      if e = '"' then some '"'
      else if e = '\\' then some '\\'
      else if e = '/' then some '/'
      else if e = 'b' then some (Char.ofNat 8)
      else if e = 't' then some (Char.ofNat 9)
      else if e = 'n' then some (Char.ofNat 10)
      else if e = 'f' then some (Char.ofNat 12)
      else if e = 'r' then some (Char.ofNat 13)
      else none
    match dec with
    | some ch => (parseStrBody rest).map (fun p => (ch :: p.1, p.2))
    | none => none
  | c :: rest =>
    if c.toNat < 32 then none
    else (parseStrBody rest).map (fun p => (c :: p.1, p.2))

mutual
/-- Parse one JSON value; `fuel` only bounds recursion depth and is chosen
larger than the input at every call site. -/
def parseJVal : Nat → List Char → Option (Jval × List Char)
  | 0, _ => none
  | fuel + 1, input =>
    match skipWs input with
    | 'n' :: 'u' :: 'l' :: 'l' :: rest => some (.null, rest)
    | 't' :: 'r' :: 'u' :: 'e' :: rest => some (.bool true, rest)
    | 'f' :: 'a' :: 'l' :: 's' :: 'e' :: rest => some (.bool false, rest)
    | '"' :: rest => (parseStrBody rest).map (fun p => (.str ⟨p.1⟩, p.2))
    | '[' :: rest =>
      (match skipWs rest with
       | ']' :: r2 => some ([], r2)
       | r2 => parseJElems fuel r2 : Option (List Jval × List Char)).map
        (fun p => (.arr p.1, p.2))
    | '\x7b' :: rest =>
      (match skipWs rest with
       | '\x7d' :: r2 => some ([], r2)
       | r2 => parseJMems fuel r2 : Option (List (String × Jval) × List Char)).map
        (fun p => (.obj (mkObj p.1), p.2))
    | c :: rest =>
      if c = '-' || c.isDigit then
        (parseJNum (c :: rest)).map (fun p => (.num p.1, p.2))
      else none
    | [] => none
/-- One or more comma-separated array elements, then the closing bracket. -/
def parseJElems : Nat → List Char → Option (List Jval × List Char)
  | 0, _ => none
  | fuel + 1, input => do
    let (v, r1) ← parseJVal fuel input
    match skipWs r1 with
    | ',' :: r2 => (parseJElems fuel r2).map (fun p => (v :: p.1, p.2))
    | ']' :: r2 => some ([v], r2)
    | _ => none
/-- One or more `"key":value` members, then the closing brace. Members are
returned in textual order; the caller folds them into an object with
JS assignment semantics. -/
def parseJMems : Nat → List Char → Option (List (String × Jval) × List Char)
  | 0, _ => none
  | fuel + 1, input =>
    match skipWs input with
    | '"' :: r0 => do
      let (ks, r1) ← parseStrBody r0
      match skipWs r1 with
      | ':' :: r2 => do
        let (v, r3) ← parseJVal fuel r2
        match skipWs r3 with
        | ',' :: r4 => (parseJMems fuel r4).map (fun p => ((⟨ks⟩, v) :: p.1, p.2))
        | '\x7d' :: r4 => some ([(⟨ks⟩, v)], r4)
        | _ => none
      | _ => none
    | _ => none
end

/-- `JSON.parse` on a character list: a single value with only whitespace
around it. -/
def jsonParseChars (cs : List Char) : Option Jval :=
  match parseJVal (cs.length + 1) cs with
  | some (v, rest) => if skipWs rest = [] then some v else none
  | none => none

def jsonParse (s : String) : Option Jval := jsonParseChars s.data

/-! ## UTF-8 bytes

`Buffer.from(str, 'utf8')` and `buffer.toString('utf8')`, on `Nat` bytes.
Two decoders: a strict one (`utf8DecBytes`), which is the notion of a byte
list BEING well-formed UTF-8 text, and the lossy one (`utf8LossyBytes`)
that `buffer.toString('utf8')` actually performs: it never fails, replacing
each maximal ill-formed subsequence with one U+FFFD (the WHATWG decode
algorithm, which Node follows). `decode` uses the lossy one. -/

def utf8EncChar (c : Char) : List Nat :=
  let n := c.toNat
  if n < 0x80 then [n]
  else if n < 0x800 then [0xc0 + n / 0x40, 0x80 + n % 0x40]
  else if n < 0x10000 then [0xe0 + n / 0x1000, 0x80 + n / 0x40 % 0x40, 0x80 + n % 0x40]
  else [0xf0 + n / 0x40000, 0x80 + n / 0x1000 % 0x40, 0x80 + n / 0x40 % 0x40, 0x80 + n % 0x40]

def utf8Enc (s : String) : List Nat := s.data.flatMap utf8EncChar

/-- Decode one UTF-8-encoded scalar from the front of the byte list:
the lead byte picks the sequence length, continuation bytes must lie in
`[0x80, 0xc0)`, and the assembled value must be a Unicode scalar. -/
def utf8DecStep : List Nat → Option (Char × List Nat)
  | [] => none
  | b0 :: bs =>
    if b0 < 0x80 then some (Char.ofNat b0, bs)
    else if b0 < 0xc0 then none
    else if b0 < 0xe0 then
      match bs with
      | b1 :: bs2 =>
        if 0x80 ≤ b1 ∧ b1 < 0xc0 then
          some (Char.ofNat ((b0 - 0xc0) * 0x40 + (b1 - 0x80)), bs2)
        else none
      | [] => none
    else if b0 < 0xf0 then
      match bs with
      | b1 :: b2 :: bs2 =>
        if 0x80 ≤ b1 ∧ b1 < 0xc0 ∧ 0x80 ≤ b2 ∧ b2 < 0xc0 then
          if validScalar ((b0 - 0xe0) * 0x1000 + (b1 - 0x80) * 0x40 + (b2 - 0x80)) then
            some (Char.ofNat ((b0 - 0xe0) * 0x1000 + (b1 - 0x80) * 0x40 + (b2 - 0x80)), bs2)
          else none
        else none
      | _ => none
    else if b0 < 0xf8 then
      match bs with
      | b1 :: b2 :: b3 :: bs2 =>
        if 0x80 ≤ b1 ∧ b1 < 0xc0 ∧ 0x80 ≤ b2 ∧ b2 < 0xc0 ∧ 0x80 ≤ b3 ∧ b3 < 0xc0 then
          if validScalar
              ((b0 - 0xf0) * 0x40000 + (b1 - 0x80) * 0x1000 + (b2 - 0x80) * 0x40 + (b3 - 0x80)) then
            some (Char.ofNat
              ((b0 - 0xf0) * 0x40000 + (b1 - 0x80) * 0x1000 + (b2 - 0x80) * 0x40 + (b3 - 0x80)), bs2)
          else none
        else none
      | _ => none
    else none

/-- Decode a whole byte list; `fuel` is only a structural bound on the
number of characters and every call site passes more than the byte count
(each decoded character consumes at least one byte). -/
def utf8Dec : Nat → List Nat → Option (List Char)
  | 0, _ => none
  | _ + 1, [] => some []
  | fuel + 1, b0 :: bs =>
    match utf8DecStep (b0 :: bs) with
    | some (c, rest) => (utf8Dec fuel rest).map (c :: ·)
    | none => none

/-- Strict whole-list decode: the characters of the buffer, or `none` on
any ill-formed input. This is "the bytes are valid UTF-8 text", used to
state validity; it is NOT what toString does on bad input. -/
def utf8DecBytes (l : List Nat) : Option (List Char) := utf8Dec (l.length + 1) l

/-- One strict step that also rejects non-shortest-form (overlong)
sequences: the bytes consumed must be exactly the canonical encoding of
the decoded character, so the accepted prefixes are precisely the
well-formed UTF-8 sequences of the WHATWG decode algorithm. -/
def utf8DecStepS (bs : List Nat) : Option (Char × List Nat) :=
  match utf8DecStep bs with
  | some (c, rest) =>
    if bs.length = (utf8EncChar c).length + rest.length then some (c, rest) else none
  | none => none

/-- Length of the maximal ill-formed subpart at the head of the list, per
the WHATWG UTF-8 decode algorithm: a rejected or truncated sequence is
replaced by one U+FFFD covering the lead byte plus every continuation
byte that was still inside the valid window for that lead (0xe0 raises
the first window to 0xa0, 0xed lowers it to 0x9f, 0xf0 raises it to
0x90, 0xf4 lowers it to 0x8f, excluding overlongs and surrogates). -/
def utf8ErrLen : List Nat → Nat
  | [] => 1
  | b0 :: bs =>
    if b0 < 0xc2 then 1
    else if b0 ≤ 0xdf then 1
    else if b0 ≤ 0xef then
      match bs with
      | b1 :: _ =>
        if (if b0 = 0xe0 then 0xa0 else 0x80) ≤ b1 ∧ b1 ≤ (if b0 = 0xed then 0x9f else 0xbf)
        then 2 else 1
      | [] => 1
    else if b0 ≤ 0xf4 then
      match bs with
      | b1 :: b2 :: _ =>
        if (if b0 = 0xf0 then 0x90 else 0x80) ≤ b1 ∧ b1 ≤ (if b0 = 0xf4 then 0x8f else 0xbf)
        then (if 0x80 ≤ b2 ∧ b2 ≤ 0xbf then 3 else 2) else 1
      | [b1] =>
        if (if b0 = 0xf0 then 0x90 else 0x80) ≤ b1 ∧ b1 ≤ (if b0 = 0xf4 then 0x8f else 0xbf)
        then 2 else 1
      | [] => 1
    else 1

/-- `buffer.toString('utf8')`: total, substituting U+FFFD for each maximal
ill-formed subsequence. `fuel` is a structural bound on the character
count; every call site passes more than the byte count (each step, good
or bad, consumes at least one byte). -/
def utf8Lossy : Nat → List Nat → List Char
  | 0, _ => []
  | _ + 1, [] => []
  | fuel + 1, b0 :: bs =>
    match utf8DecStepS (b0 :: bs) with
    | some (c, rest) => c :: utf8Lossy fuel rest
    | none => Char.ofNat 0xfffd :: utf8Lossy fuel ((b0 :: bs).drop (utf8ErrLen (b0 :: bs)))

def utf8LossyBytes (l : List Nat) : List Char := utf8Lossy (l.length + 1) l

/-! ## Wire codec — `src/interlock/protocol.ts`

12-byte header (type, version, payload length, timestamp, all big-endian)
followed by the UTF-8 JSON payload. `Date.now()` is passed explicitly as
`now` (milliseconds); `Buffer.write*BE` range violations throw in Node and
are modelled as `none`. -/

def PROTOCOL_VERSION : Nat := 0x0100

/-- The `SIGNAL_NAMES` table (codes from `src/types.ts`). -/
def signalNamesList : List (Nat × String) :=
  [(0xd0, "DECISION_PENDING"), (0xdf, "OPERATION_COMPLETE"), (0xe5, "LESSON_LEARNED"),
   (0x04, "HEARTBEAT"), (0xb0, "TENET_VIOLATION"), (0xb1, "COUNTERFEIT_DETECTED"),
   (0xb2, "ETHICS_AFFIRMED"), (0xb3, "BLIND_SPOT_ALERT"), (0xb4, "REMEDIATION_NEEDED")]

/-- `isValidSignal`: membership in the fixed code table. -/
def isValidSignal (signalType : Nat) : Bool :=
  signalNamesList.any (fun p => p.1 = signalType)

def writeU16 (x : Nat) : List Nat := [x / 256, x % 256]

def writeU32 (x : Nat) : List Nat :=
  [x / 16777216, x / 65536 % 256, x / 256 % 256, x % 256]

def readU16 (l : List Nat) (off : Nat) : Nat := l.getD off 0 * 256 + l.getD (off + 1) 0

def readU32 (l : List Nat) (off : Nat) : Nat :=
  l.getD off 0 * 16777216 + l.getD (off + 1) 0 * 65536 + l.getD (off + 2) 0 * 256 + l.getD (off + 3) 0

/-- The object literal `{ sender, ...data }`: insert `sender`, then spread
`data` one property assignment at a time. -/
def encodePayload (sender : String) (data : List (String × Jval)) : List (String × Jval) :=
  data.foldl (fun acc kv => alSet kv.1 kv.2 acc) [("sender", .str sender)]

/-- `encode(signalType, sender, data)`, with `now` the ambient clock in ms. -/
def encode (signalType : Nat) (sender : String) (data : List (String × Jval)) (now : Nat) :
    Option (List Nat) :=
  let payloadBuffer := utf8Enc (jsStringify (.obj (encodePayload sender data)))
  if signalType ≤ 0xffff ∧ payloadBuffer.length ≤ 0xffffffff ∧ now / 1000 ≤ 0xffffffff then
    some (writeU16 signalType ++ writeU16 PROTOCOL_VERSION ++
          writeU32 payloadBuffer.length ++ writeU32 (now / 1000) ++ payloadBuffer)
  else none

structure DecodedSignal where
  signalType : Nat
  version : Nat
  timestamp : Nat
  payload : Jval

/-- JS truthiness of an optional JSON field: `undefined`, `null`, `false`,
`0` and `""` are falsy. -/
def jsFalsy : Option Jval → Bool
  | none => true
  | some .null => true
  | some (.bool b) => !b
  | some (.num n) => n = 0
  | some (.str s) => s = ""
  | some _ => false

/-- The `if (!payload.sender) payload.sender = 'unknown'` step. On an object
this is a property assignment; on an array the added property is invisible
to the JSON value; on a primitive the strict-mode assignment throws a
`TypeError`, which the surrounding `try` turns into `null`. -/
def ensureSender : Jval → Option Jval
  | .obj ms =>
    if jsFalsy (alGet "sender" ms) then some (.obj (alSet "sender" (.str "unknown") ms))
    else some (.obj ms)
  | .arr es => some (.arr es)
  | _ => none

/-- Bytes of the declared payload window: `buffer.slice(12, 12 + len)`. -/
def payloadSlice (buffer : List Nat) (len : Nat) : List Nat := (buffer.drop 12).take len

/-- `slice.toString('utf8')` followed by `JSON.parse`. The UTF-8 stage
never fails (ill-formed bytes become U+FFFD); only the parse can. -/
def payloadJson (bytes : List Nat) : Option Jval :=
  jsonParseChars (utf8LossyBytes bytes)

/-- `decode(buffer)`: header checks, then JSON payload, then the sender
default; every failure path is `null`, never a throw. -/
def decode (buffer : List Nat) : Option DecodedSignal :=
  if buffer.length < 12 then none
  else
    let signalType := readU16 buffer 0
    let version := readU16 buffer 2
    let payloadLength := readU32 buffer 4
    let timestamp := readU32 buffer 8
    if buffer.length < 12 + payloadLength then none
    else
      match payloadJson (payloadSlice buffer payloadLength) with
      | none => none
      | some payload =>
        (ensureSender payload).map (fun p =>
          { signalType := signalType, version := version, timestamp := timestamp, payload := p })

/-! ## Tumbler — `src/interlock/tumbler.ts`

Module-level mutable state (`recentSignals`, `tumblerStats`) becomes an
explicit `TumblerState` threaded through each call; `Date.now()` is the
explicit `now` argument. -/

def MAX_HOP_COUNT : Nat := 3
def SIGNAL_TTL_MS : Nat := 30000
def DEDUP_CLEANUP_INTERVAL : Nat := 60000

structure SignalMetadata where
  signalId : String
  originServer : String
  hopCount : Nat
  parentSignalId : Option String
  timestamp : Nat

structure TumblerStats where
  accepted : Nat
  rejected : Nat
  rejectedHopLimit : Nat
  rejectedExpired : Nat
  rejectedDuplicate : Nat

structure TumblerState where
  recentSignals : List (String × Nat)
  stats : TumblerStats

def initialTumbler : TumblerState :=
  { recentSignals := [], stats := ⟨0, 0, 0, 0, 0⟩ }

/-- The default whitelist, used whenever `config/interlock.json` is missing
or invalid (the configuration file is not part of the sources; the model
takes the fallback branch of `loadWhitelist`). -/
def loadWhitelist : List String :=
  ["DECISION_PENDING", "OPERATION_COMPLETE", "LESSON_LEARNED", "HEARTBEAT",
   "TENET_VIOLATION", "COUNTERFEIT_DETECTED", "ETHICS_AFFIRMED",
   "BLIND_SPOT_ALERT", "REMEDIATION_NEEDED"]

/-- `checkCircuitBreaker(metadata?)`: hop count, then TTL, then dedup; on
acceptance the signal id is recorded. JS truthiness guards both the TTL
check (`metadata.timestamp && …`) and the dedup check/record
(`metadata.signalId && …`), so a zero timestamp or empty id skips them. -/
def checkCircuitBreaker (now : Nat) (metadata : Option SignalMetadata) (st : TumblerState) :
    Option String × TumblerState :=
  match metadata with
  | none => (none, st)
  | some md =>
    if md.hopCount ≥ MAX_HOP_COUNT then
      (some ("hop_limit_exceeded (" ++ toString md.hopCount ++ " >= " ++ toString MAX_HOP_COUNT ++ ")"),
       { st with stats := { st.stats with rejectedHopLimit := st.stats.rejectedHopLimit + 1 } })
    else if md.timestamp ≠ 0 ∧ now - md.timestamp > SIGNAL_TTL_MS then
      (some ("signal_expired (age=" ++ toString (now - md.timestamp) ++ "ms > " ++ toString SIGNAL_TTL_MS ++ "ms)"),
       { st with stats := { st.stats with rejectedExpired := st.stats.rejectedExpired + 1 } })
    else if md.signalId ≠ "" ∧ (alGet md.signalId st.recentSignals).isSome then
      (some ("duplicate_signal (id=" ++ md.signalId ++ ")"),
       { st with stats := { st.stats with rejectedDuplicate := st.stats.rejectedDuplicate + 1 } })
    else if md.signalId ≠ "" then
      (none, { st with recentSignals := alSet md.signalId now st.recentSignals })
    else
      (none, st)

/-- `cleanupExpiredSignals()`: evict dedup entries older than the TTL. -/
def cleanupExpiredSignals (now : Nat) (st : TumblerState) : TumblerState :=
  { st with recentSignals := st.recentSignals.filter (fun kv => !(kv.2 < now - SIGNAL_TTL_MS)) }

/-- `isWhitelisted(signalName, metadata?)`: the circuit breaker runs first
(and mutates the dedup cache); the whitelist is consulted only if it
passes. Returns `(allowed, reason?)`. -/
def isWhitelisted (signalName : String) (metadata : Option SignalMetadata) (now : Nat)
    (st : TumblerState) : (Bool × Option String) × TumblerState :=
  let r := checkCircuitBreaker now metadata st
  match r.1 with
  | some reason =>
    ((false, some ("Circuit breaker: " ++ reason)),
     { r.2 with stats := { r.2.stats with rejected := r.2.stats.rejected + 1 } })
  | none =>
    if signalName ∈ loadWhitelist then
      ((true, none), { r.2 with stats := { r.2.stats with accepted := r.2.stats.accepted + 1 } })
    else
      ((false, some ("Signal " ++ signalName ++ " not in whitelist")),
       { r.2 with stats := { r.2.stats with rejected := r.2.stats.rejected + 1 } })

/-! ## Signal handlers — `src/interlock/handlers.ts`

The `Evaluator` and the quick evaluator are external collaborators, passed
as functions; the pattern tables of `DatabaseManager` become an explicit
`PatternStore` (UUIDs modelled as a fresh counter). Emission through
`context.emit` is modelled by returning the list of emitted signals. -/

inductive Assessment where
  | affirm
  | caution
  | reject
deriving DecidableEq

structure EvalViolation where
  tenet_name : Option String
  severity : String
  description : String
deriving DecidableEq

structure EvalCounterfeit where
  tenet_name : String
  counterfeit_pattern : String
  confidence : ℚ
deriving DecidableEq

structure Evaluation where
  id : String
  overall_assessment : Assessment
  violations : List EvalViolation
  counterfeits_matched : List EvalCounterfeit
  recommendations : List String
deriving DecidableEq

structure EvalOpts where
  context : Option (List (String × Jval))
  stakeholders : Option (List String)
  depth : String

structure QuickResult where
  counterfeitDetected : Bool

/-- Payload fields the handlers read from an inbound signal (typed per the
casts in `handlers.ts`). -/
structure InData where
  decision_text : Option String
  operation : Option String
  lesson : Option String
  context : Option (List (String × Jval))
  stakeholders : Option (List String)

/-- An inbound mesh signal as the handlers see it (`src/types.ts` Signal). -/
structure InSignal where
  code : Nat
  name : String
  sender : String
  timestamp : Nat
  data : Option InData

/-- Payloads the handlers attach to the signals they emit. -/
inductive EmitData where
  | affirmed (evaluation_id : String) (decision_text : String)
  | violation (evaluation_id : String) (tenet : Option String) (severity : String) (description : String)
  | counterfeit (evaluation_id : String) (tenet : String) (pattern : String) (confidence : ℚ)
  | blindSpot (evaluation_id : String) (recommendations : List String)
  | opCounterfeit (operation : String) (sender : String)
deriving DecidableEq

/-- An emitted signal (`createSignal` in `src/interlock/protocol.ts`, the
JSON-variant used by the handlers: code, looked-up name, fixed sender,
current time, data). -/
structure OutSignal where
  code : Nat
  name : String
  sender : String
  timestamp : Nat
  data : EmitData
deriving DecidableEq

/-- `getSignalName` of the handler-side protocol: `'UNKNOWN'` fallback. -/
def getSignalNameJ (code : Nat) : String :=
  match signalNamesList.lookup code with
  | some n => n
  | none => "UNKNOWN"

def createSignal (code : Nat) (data : EmitData) (now : Nat) : OutSignal :=
  { code := code, name := getSignalNameJ code, sender := "tenets-server", timestamp := now, data := data }

structure Pattern where
  id : Nat
  pattern_type : String
  description : String
  related_tenets : List Nat
  frequency : Nat
  last_seen : Nat
  confidence : ℚ
deriving DecidableEq

structure PatternStore where
  nextId : Nat
  patterns : List Pattern
deriving DecidableEq

/-- `findPatternByDescription`: exact-match lookup. -/
def findPatternByDescription (description : String) (store : PatternStore) : Option Pattern :=
  store.patterns.find? (fun p => p.description = description)

/-- `insertPattern`: append a new row with a fresh id. -/
def insertPattern (pattern_type : String) (description : String) (now : Nat)
    (store : PatternStore) : PatternStore :=
  { nextId := store.nextId + 1,
    patterns := store.patterns ++
      [{ id := store.nextId, pattern_type := pattern_type, description := description,
         related_tenets := [], frequency := 1, last_seen := now, confidence := 1 / 2 }] }

/-- `updatePatternFrequency`: bump the row's frequency and `last_seen`. -/
def updatePatternFrequency (id : Nat) (now : Nat) (store : PatternStore) : PatternStore :=
  { store with patterns := store.patterns.map (fun p =>
      if p.id = id then { p with frequency := p.frequency + 1, last_seen := now } else p) }

def lowerStr (s : String) : String := s.map Char.toLower

def strIncludes (hay needle : String) : Bool := decide (List.IsInfix needle.data hay.data)

/-- The fixed substring heuristics classifying a lesson. -/
def classifyLesson (lesson : String) : String :=
  let lower := lowerStr lesson
  if strIncludes lower "violation" || strIncludes lower "wrong" then "violation"
  else if strIncludes lower "counterfeit" || strIncludes lower "fake" then "counterfeit"
  else if strIncludes lower "missed" || strIncludes lower "blind spot" then "blind_spot"
  else "success"

def SIG_DECISION_PENDING : Nat := 0xd0
def SIG_OPERATION_COMPLETE : Nat := 0xdf
def SIG_LESSON_LEARNED : Nat := 0xe5
def SIG_HEARTBEAT : Nat := 0x04
def SIG_TENET_VIOLATION : Nat := 0xb0
def SIG_COUNTERFEIT_DETECTED : Nat := 0xb1
def SIG_ETHICS_AFFIRMED : Nat := 0xb2
def SIG_BLIND_SPOT_ALERT : Nat := 0xb3

/-- `handleDecisionPending`: require a truthy `decision_text`, evaluate,
then emit by assessment (affirm / reject / otherwise caution). -/
def handleDecisionPending (signal : InSignal) (evaluate : String → EvalOpts → Evaluation)
    (now : Nat) : List OutSignal :=
  match signal.data with
  | none => []
  | some data =>
    match data.decision_text with
    | none => []
    | some dt =>
      if dt = "" then []
      else
        let evaluation := evaluate dt
          { context := data.context, stakeholders := data.stakeholders, depth := "standard" }
        match evaluation.overall_assessment with
        | .affirm =>
          [createSignal SIG_ETHICS_AFFIRMED (.affirmed evaluation.id (dt.take 100)) now]
        | .reject =>
          evaluation.violations.map (fun v =>
            createSignal SIG_TENET_VIOLATION
              (.violation evaluation.id v.tenet_name v.severity v.description) now) ++
          evaluation.counterfeits_matched.map (fun m =>
            createSignal SIG_COUNTERFEIT_DETECTED
              (.counterfeit evaluation.id m.tenet_name m.counterfeit_pattern m.confidence) now)
        | .caution =>
          [createSignal SIG_BLIND_SPOT_ALERT (.blindSpot evaluation.id evaluation.recommendations) now]

/-- `handleOperationComplete`: quick-evaluate a truthy `operation`. -/
def handleOperationComplete (signal : InSignal) (quickEvaluate : String → QuickResult)
    (now : Nat) : List OutSignal :=
  match signal.data with
  | none => []
  | some data =>
    match data.operation with
    | none => []
    | some op =>
      if op = "" then []
      else if (quickEvaluate op).counterfeitDetected then
        [createSignal SIG_COUNTERFEIT_DETECTED (.opCounterfeit op signal.sender) now]
      else []

/-- `handleLessonLearned`: merge into an existing pattern with the same
description, or classify and insert a fresh one. -/
def handleLessonLearned (signal : InSignal) (store : PatternStore) (now : Nat) : PatternStore :=
  match signal.data with
  | none => store
  | some data =>
    match data.lesson with
    | none => store
    | some lesson =>
      if lesson = "" then store
      else
        match findPatternByDescription lesson store with
        | some existingPattern => updatePatternFrequency existingPattern.id now store
        | none => insertPattern (classifyLesson lesson) lesson now store

/-- The collaborator bundle of `HandlerContext` (emission is the returned
list; the pattern store is threaded explicitly). -/
structure HandlerCtx where
  evaluate : String → EvalOpts → Evaluation
  quickEvaluate : String → QuickResult

/-- `handleSignal`: dispatch on the signal code; unknown codes are logged
and ignored. Returns the emitted signals and the updated store. -/
def handleSignal (signal : InSignal) (ctx : HandlerCtx) (store : PatternStore) (now : Nat) :
    List OutSignal × PatternStore :=
  if signal.code = SIG_DECISION_PENDING then
    (handleDecisionPending signal ctx.evaluate now, store)
  else if signal.code = SIG_OPERATION_COMPLETE then
    (handleOperationComplete signal ctx.quickEvaluate now, store)
  else if signal.code = SIG_LESSON_LEARNED then
    ([], handleLessonLearned signal store now)
  else if signal.code = SIG_HEARTBEAT then
    ([], store)
  else
    ([], store)

/-! ## Mesh lifecycle — `close()` in `src/interlock/socket.js`

The heartbeat interval and the UDP socket become two state flags. A
heartbeat can only fire while the timer flag is set, so clearing the flag
is exactly "no further heartbeat is emitted". Node's `dgram` socket throws
`ERR_SOCKET_DGRAM_NOT_RUNNING` when `close()` is called on an
already-closed socket, modelled as the `Except` error path. -/

structure MeshState where
  heartbeatTimer : Bool
  socketOpen : Bool
deriving DecidableEq

/-- A freshly created, bound mesh: socket open, heartbeat started. -/
def meshAfterBind : MeshState := { heartbeatTimer := true, socketOpen := true }

/-- `dgram` `socket.close()`: throws if the socket is not running. -/
def socketClose (st : MeshState) : Except String MeshState :=
  if st.socketOpen then .ok { st with socketOpen := false }
  else .error "ERR_SOCKET_DGRAM_NOT_RUNNING"

/-- The mesh `close()`: clear the heartbeat interval if set, then close the
socket. -/
def closeMesh (st : MeshState) : Except String MeshState :=
  socketClose { st with heartbeatTimer := false }

/-- One heartbeat-timer tick: fires (emits) only while the interval timer
is set. Returns whether a heartbeat was emitted. -/
def heartbeatTick (st : MeshState) : Bool × MeshState :=
  (st.heartbeatTimer, st)

/-! ## Concrete fixtures used by counterexamples and witnesses -/

/-- An evaluator that affirms everything (a legitimate collaborator per the
`Evaluator.evaluate` contract). -/
def evAffirmConst : String → EvalOpts → Evaluation :=
  fun _ _ => { id := "ev-a", overall_assessment := .affirm, violations := [],
               counterfeits_matched := [], recommendations := [] }

/-- An evaluator that rejects with two violations and one counterfeit. -/
def evRejectTwoOne : String → EvalOpts → Evaluation :=
  fun _ _ =>
    { id := "ev-r", overall_assessment := .reject,
      violations := [⟨some "LOVE", "high", "v1"⟩, ⟨some "TRUTH", "low", "v2"⟩],
      counterfeits_matched := [⟨"LOVE", "control", 7⟩],
      recommendations := [] }

def qvNone : String → QuickResult := fun _ => ⟨false⟩

def emptyStore : PatternStore := { nextId := 0, patterns := [] }

/-! # Theorems -/

/-! ## Association-list lemmas -/

theorem alGet_alSet_self {α : Type} (k : String) (v : α) (l : List (String × α)) :
    alGet k (alSet k v l) = some v := by
  induction l with
  | nil => simp [alSet, alGet]
  | cons kv rest ih =>
    obtain ⟨k', v'⟩ := kv
    by_cases h : k' = k
    · simp [alSet, alGet, h]
    · simp [alSet, alGet, h, ih]

theorem alGet_filter {α : Type} (k : String) (v : α) (p : String × α → Bool)
    (l : List (String × α)) (hget : alGet k l = some v) (hp : p (k, v) = true) :
    alGet k (l.filter p) = some v := by
  induction l with
  | nil => simp [alGet] at hget
  | cons kv rest ih =>
    obtain ⟨k', v'⟩ := kv
    by_cases h : k' = k
    · subst h
      have hv : v' = v := by simpa [alGet] using hget
      subst hv
      rw [List.filter_cons_of_pos hp]
      simp [alGet]
    · rw [show alGet k ((k', v') :: rest) = alGet k rest from by simp [alGet, h]] at hget
      by_cases hpk : p (k', v') = true
      · rw [List.filter_cons_of_pos hpk]
        simpa [alGet, h] using ih hget
      · rw [List.filter_cons_of_neg (by simpa using hpk)]
        exact ih hget

/-! ## Tumbler gate order (claim C3) -/

/-- Claim C3 counterexample: a signal whose name is not in the whitelist
and whose metadata has `hopCount = 3` is rejected with the circuit-breaker
reason, not the whitelist reason — the circuit breaker runs first. -/
theorem gate_order_cex :
    (isWhitelisted "EVIL_SIGNAL" (some ⟨"sig-1", "origin", 3, none, 1000⟩) 1000 initialTumbler).1
      = (false, some "Circuit breaker: hop_limit_exceeded (3 >= 3)")
    ∧ (some "Circuit breaker: hop_limit_exceeded (3 >= 3)" : Option String)
      ≠ some "Signal EVIL_SIGNAL not in whitelist" :=
  ⟨rfl, by decide⟩

/-- Claim C3 (amended): the circuit-breaker gate is evaluated before the
whitelist gate; a breaker rejection carries the breaker reason regardless
of whitelist membership, and the whitelist decides only when the breaker
passes. -/
theorem gate_order (name : String) (md : Option SignalMetadata) (now : Nat)
    (st : TumblerState) :
    (∀ r, (checkCircuitBreaker now md st).1 = some r →
      (isWhitelisted name md now st).1 = (false, some ("Circuit breaker: " ++ r)))
    ∧ ((checkCircuitBreaker now md st).1 = none →
      (isWhitelisted name md now st).1 =
        if name ∈ loadWhitelist then (true, none)
        else (false, some ("Signal " ++ name ++ " not in whitelist"))) := by
  constructor
  · intro r hr
    simp only [isWhitelisted, hr]
  · intro hnone
    simp only [isWhitelisted, hnone]
    by_cases h : name ∈ loadWhitelist <;> simp [h]

/-- Witness for `gate_order` at a concrete rejected and a concrete passed
input. -/
theorem gate_order_witness :
    (isWhitelisted "HEARTBEAT" (some ⟨"w3-id", "o", 3, none, 50⟩) 50 initialTumbler).1
      = (false, some "Circuit breaker: hop_limit_exceeded (3 >= 3)")
    ∧ (isWhitelisted "NOT_LISTED" none 50 initialTumbler).1
      = (false, some "Signal NOT_LISTED not in whitelist") := by
  constructor
  · exact (gate_order "HEARTBEAT" (some ⟨"w3-id", "o", 3, none, 50⟩) 50 initialTumbler).1
      "hop_limit_exceeded (3 >= 3)" rfl
  · have h := (gate_order "NOT_LISTED" none 50 initialTumbler).2 rfl
    simpa using h

/-! ## Circuit-breaker helper lemmas -/

theorem ccb_accept (now : Nat) (md : SignalMetadata) (st : TumblerState)
    (hhop : md.hopCount < MAX_HOP_COUNT) (httl : now - md.timestamp ≤ SIGNAL_TTL_MS)
    (hid : md.signalId ≠ "") (hfresh : alGet md.signalId st.recentSignals = none) :
    checkCircuitBreaker now (some md) st =
      (none, { st with recentSignals := alSet md.signalId now st.recentSignals }) := by
  have h1 : ¬(md.hopCount ≥ MAX_HOP_COUNT) := by omega
  have h2 : ¬(md.timestamp ≠ 0 ∧ now - md.timestamp > SIGNAL_TTL_MS) := by
    rintro ⟨-, hgt⟩; omega
  have h3 : ¬(md.signalId ≠ "" ∧ (alGet md.signalId st.recentSignals).isSome) := by
    simp [hfresh]
  simp [checkCircuitBreaker, h1, h2, h3, hid, hfresh]

theorem ccb_duplicate (now : Nat) (md : SignalMetadata) (st : TumblerState)
    (hhop : md.hopCount < MAX_HOP_COUNT) (httl : now - md.timestamp ≤ SIGNAL_TTL_MS)
    (hid : md.signalId ≠ "") (hdup : (alGet md.signalId st.recentSignals).isSome) :
    checkCircuitBreaker now (some md) st =
      (some ("duplicate_signal (id=" ++ md.signalId ++ ")"),
       { st with stats := { st.stats with rejectedDuplicate := st.stats.rejectedDuplicate + 1 } }) := by
  have h1 : ¬(md.hopCount ≥ MAX_HOP_COUNT) := by omega
  have h2 : ¬(md.timestamp ≠ 0 ∧ now - md.timestamp > SIGNAL_TTL_MS) := by
    rintro ⟨-, hgt⟩; omega
  simp [checkCircuitBreaker, h1, h2, hid, hdup]

theorem iw_accept (name : String) (md : Option SignalMetadata) (now : Nat) (st st' : TumblerState)
    (hcb : checkCircuitBreaker now md st = (none, st')) (hmem : name ∈ loadWhitelist) :
    isWhitelisted name md now st =
      ((true, none), { st' with stats := { st'.stats with accepted := st'.stats.accepted + 1 } }) := by
  simp [isWhitelisted, hcb, hmem]

theorem iw_reject_breaker (name : String) (md : Option SignalMetadata) (now : Nat)
    (st st' : TumblerState) (r : String)
    (hcb : checkCircuitBreaker now md st = (some r, st')) :
    isWhitelisted name md now st =
      ((false, some ("Circuit breaker: " ++ r)),
       { st' with stats := { st'.stats with rejected := st'.stats.rejected + 1 } }) := by
  simp [isWhitelisted, hcb]

theorem iw_reject_whitelist (name : String) (md : Option SignalMetadata) (now : Nat)
    (st st' : TumblerState) (hcb : checkCircuitBreaker now md st = (none, st'))
    (hmem : name ∉ loadWhitelist) :
    isWhitelisted name md now st =
      ((false, some ("Signal " ++ name ++ " not in whitelist")),
       { st' with stats := { st'.stats with rejected := st'.stats.rejected + 1 } }) := by
  simp [isWhitelisted, hcb, hmem]

/-! ## Deduplication (claim C4) -/

/-- Claim C4 counterexample: with the (falsy) empty-string `signalId`, both
submissions pass every gate — the second is *not* rejected as
`duplicate_signal`, because an empty id is never recorded or checked. -/
theorem dedup_empty_id_cex :
    (isWhitelisted "HEARTBEAT" (some ⟨"", "orig", 0, none, 1000⟩) 1000 initialTumbler).1
      = (true, none)
    ∧ (isWhitelisted "HEARTBEAT" (some ⟨"", "orig", 0, none, 2000⟩) 2000
        (isWhitelisted "HEARTBEAT" (some ⟨"", "orig", 0, none, 1000⟩) 1000 initialTumbler).2).1
      = (true, none) := ⟨rfl, rfl⟩

/-- Claim C4 (amended to non-empty `signalId`): a fresh signal id passing
all gates is accepted and recorded; resubmitting it within the TTL window —
even across a dedup sweep — is rejected as `duplicate_signal`. -/
theorem dedup_within_window (id o1 o2 : String) (p1 p2 : Option String)
    (hop1 hop2 ts1 ts2 t1 t2 tsweep : Nat) (name1 name2 : String) (st0 : TumblerState)
    (hid : id ≠ "")
    (hw1 : name1 ∈ loadWhitelist) (_hw2 : name2 ∈ loadWhitelist)
    (hhop1 : hop1 < MAX_HOP_COUNT) (hhop2 : hop2 < MAX_HOP_COUNT)
    (httl1 : t1 - ts1 ≤ SIGNAL_TTL_MS) (httl2 : t2 - ts2 ≤ SIGNAL_TTL_MS)
    (hfresh : alGet id st0.recentSignals = none)
    (hwin : t2 ≤ t1 + SIGNAL_TTL_MS) (hsw : tsweep ≤ t2) :
    (isWhitelisted name1 (some ⟨id, o1, hop1, p1, ts1⟩) t1 st0).1 = (true, none)
    ∧ alGet id (isWhitelisted name1 (some ⟨id, o1, hop1, p1, ts1⟩) t1 st0).2.recentSignals
        = some t1
    ∧ (isWhitelisted name2 (some ⟨id, o2, hop2, p2, ts2⟩) t2
        (cleanupExpiredSignals tsweep
          (isWhitelisted name1 (some ⟨id, o1, hop1, p1, ts1⟩) t1 st0).2)).1
      = (false, some ("Circuit breaker: " ++ ("duplicate_signal (id=" ++ id ++ ")"))) := by
  have hcb1 := ccb_accept t1 ⟨id, o1, hop1, p1, ts1⟩ st0 hhop1 httl1 hid hfresh
  have hr1 := iw_accept name1 (some ⟨id, o1, hop1, p1, ts1⟩) t1 st0 _ hcb1 hw1
  refine ⟨by rw [hr1], ?_, ?_⟩
  · rw [hr1]
    exact alGet_alSet_self id t1 st0.recentSignals
  · have hget : alGet id (cleanupExpiredSignals tsweep
        (isWhitelisted name1 (some ⟨id, o1, hop1, p1, ts1⟩) t1 st0).2).recentSignals
        = some t1 := by
      rw [hr1]
      simp only [cleanupExpiredSignals]
      refine alGet_filter id t1 _ _ (alGet_alSet_self id t1 st0.recentSignals) ?_
      simp only [Bool.not_eq_true', decide_eq_false_iff_not, Nat.not_lt]
      simp only [SIGNAL_TTL_MS] at hwin ⊢
      omega
    have hcb2 := ccb_duplicate t2 ⟨id, o2, hop2, p2, ts2⟩ _ hhop2 httl2 hid
      (by rw [hget]; rfl)
    have hr2 := iw_reject_breaker name2 (some ⟨id, o2, hop2, p2, ts2⟩) t2 _ _ _ hcb2
    rw [hr2]

/-- Witness for `dedup_within_window` at concrete inputs. -/
theorem dedup_within_window_witness :
    (isWhitelisted "HEARTBEAT" (some ⟨"sig-42", "a", 0, none, 1000⟩) 1000 initialTumbler).1
      = (true, none)
    ∧ (isWhitelisted "LESSON_LEARNED" (some ⟨"sig-42", "b", 1, none, 2000⟩) 2000
        (cleanupExpiredSignals 1500
          (isWhitelisted "HEARTBEAT" (some ⟨"sig-42", "a", 0, none, 1000⟩) 1000 initialTumbler).2)).1
      = (false, some "Circuit breaker: duplicate_signal (id=sig-42)") := by
  have h := dedup_within_window "sig-42" "a" "b" none none 0 1 1000 2000 1000 2000 1500
    "HEARTBEAT" "LESSON_LEARNED" initialTumbler (by decide) (by decide) (by decide)
    (by decide) (by decide) (by decide) (by decide) rfl (by decide) (by decide)
  exact ⟨h.1, h.2.2⟩

/-! ## TTL boundary (claim C5) -/

/-- Claim C5 counterexample: metadata is present with `timestamp = 0`, the
signal is 40 000 ms old (`now − timestamp > 30 000`), yet it is *accepted* —
the TTL guard `metadata.timestamp && …` skips a (falsy) zero timestamp. -/
theorem ttl_zero_timestamp_cex :
    (40000 - (0 : Nat) > SIGNAL_TTL_MS)
    ∧ (checkCircuitBreaker 40000 (some ⟨"cex5-id", "o", 0, none, 0⟩) initialTumbler).1 = none
    ∧ (isWhitelisted "HEARTBEAT" (some ⟨"cex5-id", "o", 0, none, 0⟩) 40000 initialTumbler).1
      = (true, none) :=
  ⟨by decide, rfl, rfl⟩

/-- Claim C5 (amended to nonzero `metadata.timestamp`): past the hop gate,
a nonzero-timestamped signal is rejected as `signal_expired` exactly when
its age exceeds 30 000 ms; at age ≤ 30 000 ms the TTL never rejects (the
outcome is acceptance or, at worst, `duplicate_signal`). -/
theorem ttl_boundary (md : SignalMetadata) (st : TumblerState) (now : Nat)
    (hhop : md.hopCount < MAX_HOP_COUNT) (hts : md.timestamp ≠ 0) :
    (now - md.timestamp > SIGNAL_TTL_MS →
      (checkCircuitBreaker now (some md) st).1 =
        some ("signal_expired (age=" ++ toString (now - md.timestamp) ++ "ms > " ++
              toString SIGNAL_TTL_MS ++ "ms)"))
    ∧ (now - md.timestamp ≤ SIGNAL_TTL_MS →
      (checkCircuitBreaker now (some md) st).1 = none ∨
      (checkCircuitBreaker now (some md) st).1 =
        some ("duplicate_signal (id=" ++ md.signalId ++ ")")) := by
  have h1 : ¬(md.hopCount ≥ MAX_HOP_COUNT) := by omega
  constructor
  · intro hold
    simp [checkCircuitBreaker, h1, hts, hold]
  · intro hyoung
    have h2 : ¬(md.timestamp ≠ 0 ∧ now - md.timestamp > SIGNAL_TTL_MS) := by
      rintro ⟨-, hgt⟩; omega
    by_cases hdup : md.signalId ≠ "" ∧ (alGet md.signalId st.recentSignals).isSome
    · right
      simp [checkCircuitBreaker, h1, h2, hdup]
    · left
      by_cases hid : md.signalId = ""
      · simp [checkCircuitBreaker, h1, h2, hdup, hid]
      · have hns : ¬((alGet md.signalId st.recentSignals).isSome = true) :=
          fun hs => hdup ⟨hid, hs⟩
        simp [checkCircuitBreaker, h1, h2, hid, hns]

/-- Witness for `ttl_boundary` at the spec's boundary ages: 29 999 ms old
passes the TTL gate, 30 001 ms old is rejected as expired. -/
theorem ttl_boundary_witness :
    ((checkCircuitBreaker 31001 (some ⟨"w5-id", "o", 0, none, 1000⟩) initialTumbler).1
      = some "signal_expired (age=30001ms > 30000ms)")
    ∧ ((checkCircuitBreaker 30999 (some ⟨"w5b-id", "o", 0, none, 1000⟩) initialTumbler).1 = none
      ∨ (checkCircuitBreaker 30999 (some ⟨"w5b-id", "o", 0, none, 1000⟩) initialTumbler).1
        = some ("duplicate_signal (id=" ++ "w5b-id" ++ ")")) := by
  constructor
  · have h := (ttl_boundary ⟨"w5-id", "o", 0, none, 1000⟩ initialTumbler 31001
      (by decide) (by decide)).1 (by decide)
    simpa using h
  · exact (ttl_boundary ⟨"w5b-id", "o", 0, none, 1000⟩ initialTumbler 30999
      (by decide) (by decide)).2 (by decide)

/-! ## Dedup recording precedes the whitelist gate (claim C9) -/

/-- Claim C9: when metadata passes all three breaker checks the signal id is
recorded *before* the whitelist gate runs, so even a whitelist-rejected
signal taints the dedup cache: a later, whitelisted submission reusing the
id is rejected as `duplicate_signal`. -/
theorem dedup_recorded_on_whitelist_reject (id o1 o2 : String) (p1 p2 : Option String)
    (hop1 hop2 ts1 ts2 t1 t2 : Nat) (nameA nameB : String) (st0 : TumblerState)
    (hid : id ≠ "")
    (hA : nameA ∉ loadWhitelist) (_hB : nameB ∈ loadWhitelist)
    (hhop1 : hop1 < MAX_HOP_COUNT) (hhop2 : hop2 < MAX_HOP_COUNT)
    (httl1 : t1 - ts1 ≤ SIGNAL_TTL_MS) (httl2 : t2 - ts2 ≤ SIGNAL_TTL_MS)
    (hfresh : alGet id st0.recentSignals = none) :
    (isWhitelisted nameA (some ⟨id, o1, hop1, p1, ts1⟩) t1 st0).1
      = (false, some ("Signal " ++ nameA ++ " not in whitelist"))
    ∧ alGet id (isWhitelisted nameA (some ⟨id, o1, hop1, p1, ts1⟩) t1 st0).2.recentSignals
        = some t1
    ∧ (isWhitelisted nameB (some ⟨id, o2, hop2, p2, ts2⟩) t2
        (isWhitelisted nameA (some ⟨id, o1, hop1, p1, ts1⟩) t1 st0).2).1
      = (false, some ("Circuit breaker: " ++ ("duplicate_signal (id=" ++ id ++ ")"))) := by
  have hcb1 := ccb_accept t1 ⟨id, o1, hop1, p1, ts1⟩ st0 hhop1 httl1 hid hfresh
  have hr1 := iw_reject_whitelist nameA (some ⟨id, o1, hop1, p1, ts1⟩) t1 st0 _ hcb1 hA
  refine ⟨by rw [hr1], ?_, ?_⟩
  · rw [hr1]
    exact alGet_alSet_self id t1 st0.recentSignals
  · have hget : alGet id
        (isWhitelisted nameA (some ⟨id, o1, hop1, p1, ts1⟩) t1 st0).2.recentSignals
        = some t1 := by
      rw [hr1]
      exact alGet_alSet_self id t1 st0.recentSignals
    have hcb2 := ccb_duplicate t2 ⟨id, o2, hop2, p2, ts2⟩ _ hhop2 httl2 hid
      (by rw [hget]; rfl)
    have hr2 := iw_reject_breaker nameB (some ⟨id, o2, hop2, p2, ts2⟩) t2 _ _ _ hcb2
    rw [hr2]

/-- Witness for `dedup_recorded_on_whitelist_reject` at concrete inputs. -/
theorem dedup_recorded_on_whitelist_reject_witness :
    (isWhitelisted "NOT_A_SIGNAL" (some ⟨"sig-77", "a", 0, none, 500⟩) 500 initialTumbler).1
      = (false, some "Signal NOT_A_SIGNAL not in whitelist")
    ∧ (isWhitelisted "HEARTBEAT" (some ⟨"sig-77", "b", 0, none, 900⟩) 900
        (isWhitelisted "NOT_A_SIGNAL" (some ⟨"sig-77", "a", 0, none, 500⟩) 500 initialTumbler).2).1
      = (false, some "Circuit breaker: duplicate_signal (id=sig-77)") := by
  have h := dedup_recorded_on_whitelist_reject "sig-77" "a" "b" none none 0 0 500 900 500 900
    "NOT_A_SIGNAL" "HEARTBEAT" initialTumbler (by decide) (by decide) (by decide)
    (by decide) (by decide) (by decide) (by decide) rfl
  exact ⟨h.1, h.2.2⟩

/-! ## DECISION_PENDING dispatch (claim C6) -/

/-- Claim C6 counterexample: `decision_text` is present but empty, the
evaluator (here a constant collaborator) would affirm — the claim demands
exactly one `ETHICS_AFFIRMED`, yet the handler emits nothing, because the
truthiness guard `!data?.decision_text` also rejects the empty string. -/
theorem decision_empty_text_cex :
    (evAffirmConst "" ⟨none, none, "standard"⟩).overall_assessment = .affirm
    ∧ handleSignal ⟨SIG_DECISION_PENDING, "DECISION_PENDING", "peer", 5,
        some ⟨some "", none, none, none, none⟩⟩ ⟨evAffirmConst, qvNone⟩ emptyStore 7
      = ([], emptyStore) := ⟨rfl, rfl⟩

/-- Claim C6 (amended: `decision_text` absent *or empty* means no-op): a
`DECISION_PENDING` signal leaves the store untouched; with no (truthy)
decision text it emits nothing; otherwise it emits per the evaluation —
one `ETHICS_AFFIRMED` on affirm, one `TENET_VIOLATION` per violation plus
one `COUNTERFEIT_DETECTED` per matched counterfeit on reject, and one
`BLIND_SPOT_ALERT` carrying the recommendations otherwise. -/
theorem decision_pending_emissions (ev : String → EvalOpts → Evaluation)
    (qv : String → QuickResult) (store : PatternStore) (sig : InSignal) (now : Nat)
    (hcode : sig.code = SIG_DECISION_PENDING) :
    (handleSignal sig ⟨ev, qv⟩ store now).2 = store
    ∧ ((sig.data.bind (fun d => d.decision_text) = none
        ∨ sig.data.bind (fun d => d.decision_text) = some "") →
      (handleSignal sig ⟨ev, qv⟩ store now).1 = [])
    ∧ (∀ d dt, sig.data = some d → d.decision_text = some dt → dt ≠ "" →
      ((ev dt ⟨d.context, d.stakeholders, "standard"⟩).overall_assessment = .affirm →
        (handleSignal sig ⟨ev, qv⟩ store now).1 =
          [createSignal SIG_ETHICS_AFFIRMED
            (.affirmed (ev dt ⟨d.context, d.stakeholders, "standard"⟩).id (dt.take 100)) now])
      ∧ ((ev dt ⟨d.context, d.stakeholders, "standard"⟩).overall_assessment = .reject →
        (handleSignal sig ⟨ev, qv⟩ store now).1 =
          (ev dt ⟨d.context, d.stakeholders, "standard"⟩).violations.map (fun v =>
            createSignal SIG_TENET_VIOLATION
              (.violation (ev dt ⟨d.context, d.stakeholders, "standard"⟩).id
                v.tenet_name v.severity v.description) now)
          ++ (ev dt ⟨d.context, d.stakeholders, "standard"⟩).counterfeits_matched.map (fun m =>
            createSignal SIG_COUNTERFEIT_DETECTED
              (.counterfeit (ev dt ⟨d.context, d.stakeholders, "standard"⟩).id
                m.tenet_name m.counterfeit_pattern m.confidence) now))
      ∧ ((ev dt ⟨d.context, d.stakeholders, "standard"⟩).overall_assessment = .caution →
        (handleSignal sig ⟨ev, qv⟩ store now).1 =
          [createSignal SIG_BLIND_SPOT_ALERT
            (.blindSpot (ev dt ⟨d.context, d.stakeholders, "standard"⟩).id
              (ev dt ⟨d.context, d.stakeholders, "standard"⟩).recommendations) now])) := by
  have hdp : handleSignal sig ⟨ev, qv⟩ store now =
      (handleDecisionPending sig ev now, store) := by
    simp [handleSignal, hcode, SIG_DECISION_PENDING]
  refine ⟨by rw [hdp], ?_, ?_⟩
  · intro habs
    rw [hdp]
    rcases habs with h | h
    · cases hd : sig.data with
      | none => simp [handleDecisionPending, hd]
      | some d =>
        rw [hd] at h
        simp only [Option.some_bind] at h
        simp [handleDecisionPending, hd, h]
    · cases hd : sig.data with
      | none => simp [handleDecisionPending, hd]
      | some d =>
        rw [hd] at h
        simp only [Option.some_bind] at h
        simp [handleDecisionPending, hd, h]
  · intro d dt hd hdt hne
    rw [hdp]
    refine ⟨?_, ?_, ?_⟩ <;> intro hass <;>
      simp [handleDecisionPending, hd, hdt, hne, hass]

/-- Witness for `decision_pending_emissions`: a rejecting evaluation with
two violations and one counterfeit emits exactly three signals. -/
theorem decision_pending_emissions_witness :
    (handleSignal ⟨SIG_DECISION_PENDING, "DECISION_PENDING", "peer", 5,
        some ⟨some "harm them", none, none, none, none⟩⟩
      ⟨evRejectTwoOne, qvNone⟩ emptyStore 7).1.length = 3 := by
  have h := (decision_pending_emissions evRejectTwoOne qvNone emptyStore
      ⟨SIG_DECISION_PENDING, "DECISION_PENDING", "peer", 5,
        some ⟨some "harm them", none, none, none, none⟩⟩ 7 rfl).2.2
      ⟨some "harm them", none, none, none, none⟩ "harm them" rfl rfl (by decide)
  rw [h.2.1 rfl]
  rfl

/-! ## LESSON_LEARNED dispatch (claim C7) -/

/-- Claim C7 counterexample: `lesson` is present but empty; the claim
demands exactly one new Pattern at frequency 1, but the handler is a no-op
(the truthiness guard `!data?.lesson` rejects the empty string), leaving
the store empty. -/
theorem lesson_empty_cex :
    handleSignal ⟨SIG_LESSON_LEARNED, "LESSON_LEARNED", "peer", 5,
        some ⟨none, none, some "", none, none⟩⟩ ⟨evAffirmConst, qvNone⟩ emptyStore 7
      = ([], emptyStore)
    ∧ findPatternByDescription "" emptyStore = none := ⟨rfl, rfl⟩

/-- Claim C7 (amended: `lesson` present *and non-empty*): a `LESSON_LEARNED`
signal emits nothing; with no (truthy) lesson the store is untouched; a
lesson whose description already exists increments that pattern's
frequency without inserting; a new description inserts exactly one pattern,
classified by the substring heuristics, at frequency 1. -/
theorem lesson_learned_store (ev : String → EvalOpts → Evaluation) (qv : String → QuickResult)
    (store : PatternStore) (sig : InSignal) (now : Nat)
    (hcode : sig.code = SIG_LESSON_LEARNED) :
    (handleSignal sig ⟨ev, qv⟩ store now).1 = []
    ∧ ((sig.data.bind (fun d => d.lesson) = none ∨ sig.data.bind (fun d => d.lesson) = some "") →
      (handleSignal sig ⟨ev, qv⟩ store now).2 = store)
    ∧ (∀ d lesson, sig.data = some d → d.lesson = some lesson → lesson ≠ "" →
      (∀ p, findPatternByDescription lesson store = some p →
        (handleSignal sig ⟨ev, qv⟩ store now).2 = updatePatternFrequency p.id now store
        ∧ ((handleSignal sig ⟨ev, qv⟩ store now).2).patterns.length = store.patterns.length)
      ∧ (findPatternByDescription lesson store = none →
        (handleSignal sig ⟨ev, qv⟩ store now).2 =
          insertPattern (classifyLesson lesson) lesson now store
        ∧ ((handleSignal sig ⟨ev, qv⟩ store now).2).patterns.length
            = store.patterns.length + 1)) := by
  have hll : handleSignal sig ⟨ev, qv⟩ store now =
      ([], handleLessonLearned sig store now) := by
    simp [handleSignal, hcode, SIG_LESSON_LEARNED, SIG_DECISION_PENDING, SIG_OPERATION_COMPLETE]
  refine ⟨by rw [hll], ?_, ?_⟩
  · intro habs
    rw [hll]
    rcases habs with h | h
    · cases hd : sig.data with
      | none => simp [handleLessonLearned, hd]
      | some d =>
        rw [hd] at h
        simp only [Option.some_bind] at h
        simp [handleLessonLearned, hd, h]
    · cases hd : sig.data with
      | none => simp [handleLessonLearned, hd]
      | some d =>
        rw [hd] at h
        simp only [Option.some_bind] at h
        simp [handleLessonLearned, hd, h]
  · intro d lesson hd hl hne
    rw [hll]
    constructor
    · intro p hp
      refine ⟨by simp [handleLessonLearned, hd, hl, hne, hp], ?_⟩
      simp [handleLessonLearned, hd, hl, hne, hp, updatePatternFrequency]
    · intro hp
      refine ⟨by simp [handleLessonLearned, hd, hl, hne, hp], ?_⟩
      simp [handleLessonLearned, hd, hl, hne, hp, insertPattern]

/-- Witness for `lesson_learned_store`: a never-seen lesson inserts exactly
one pattern (here classified `blind_spot`) at frequency 1; the emitted list
is empty. -/
theorem lesson_learned_store_witness :
    (handleSignal ⟨SIG_LESSON_LEARNED, "LESSON_LEARNED", "peer", 5,
        some ⟨none, none, some "Missed a blind spot", none, none⟩⟩
      ⟨evAffirmConst, qvNone⟩ emptyStore 7).2
      = insertPattern (classifyLesson "Missed a blind spot") "Missed a blind spot" 7 emptyStore
    ∧ (handleSignal ⟨SIG_LESSON_LEARNED, "LESSON_LEARNED", "peer", 5,
        some ⟨none, none, some "Missed a blind spot", none, none⟩⟩
      ⟨evAffirmConst, qvNone⟩ emptyStore 7).1 = [] := by
  have h := lesson_learned_store evAffirmConst qvNone emptyStore
    ⟨SIG_LESSON_LEARNED, "LESSON_LEARNED", "peer", 5,
      some ⟨none, none, some "Missed a blind spot", none, none⟩⟩ 7 rfl
  exact ⟨((h.2.2 ⟨none, none, some "Missed a blind spot", none, none⟩ "Missed a blind spot"
    rfl rfl (by decide)).2 rfl).1, h.1⟩

/-! ## Mesh shutdown (claim C8, a code bug) -/

/-- Claim C8: the first half holds — after `close()` the heartbeat timer is
cleared, so no tick can emit. The idempotence half is a code bug: the
second `close()` reaches `socket.close()` on an already-closed dgram
socket, which throws `ERR_SOCKET_DGRAM_NOT_RUNNING` — contradicting the
spec's "calling `close()` twice does not throw". -/
theorem close_stops_heartbeat_but_throws_twice :
    (closeMesh meshAfterBind).map (fun st => (st.heartbeatTimer, (heartbeatTick st).1))
      = .ok (false, false)
    ∧ (closeMesh meshAfterBind).bind closeMesh = .error "ERR_SOCKET_DGRAM_NOT_RUNNING" :=
  ⟨rfl, rfl⟩

/-! ## Number round trip -/

theorem digitChar_spec (d : Nat) (h : d < 10) :
    (digitChar d).toNat = 48 + d ∧ (digitChar d).isDigit = true := by
  interval_cases d <;> exact ⟨by decide, by decide⟩

theorem natChars_unfold (n : Nat) :
    natChars n = if n < 10 then [digitChar n] else natChars (n / 10) ++ [digitChar (n % 10)] := by
  rw [natChars]

theorem natChars_ne_nil (n : Nat) : natChars n ≠ [] := by
  rw [natChars_unfold]
  split <;> simp

theorem natChars_digits (n : Nat) : ∀ c ∈ natChars n, c.isDigit = true := by
  induction n using Nat.strongRecOn with
  | _ n ih =>
    intro c hc
    rw [natChars_unfold] at hc
    by_cases h : n < 10
    · rw [if_pos h] at hc
      simp only [List.mem_singleton] at hc
      subst hc
      exact (digitChar_spec n h).2
    · rw [if_neg h] at hc
      rcases List.mem_append.mp hc with h1 | h2
      · exact ih (n / 10) (by omega) c h1
      · simp only [List.mem_singleton] at h2
        subst h2
        exact (digitChar_spec (n % 10) (by omega)).2

theorem natChars_head (n : Nat) : ∃ c t, natChars n = c :: t ∧ c.isDigit = true := by
  cases h : natChars n with
  | nil => exact absurd h (natChars_ne_nil n)
  | cons c t => exact ⟨c, t, rfl, natChars_digits n c (h ▸ List.mem_cons_self c t)⟩

theorem digitsVal_snoc (ds : List Char) (c : Char) :
    digitsVal (ds ++ [c]) = digitsVal ds * 10 + (c.toNat - 48) := by
  simp [digitsVal, List.foldl_append]

theorem digitsVal_natChars (n : Nat) : digitsVal (natChars n) = n := by
  induction n using Nat.strongRecOn with
  | _ n ih =>
    rw [natChars_unfold]
    by_cases h : n < 10
    · simp only [if_pos h, digitsVal, List.foldl_cons, List.foldl_nil]
      rw [(digitChar_spec n h).1]
      omega
    · rw [if_neg h, digitsVal_snoc, ih (n / 10) (by omega), (digitChar_spec (n % 10) (by omega)).1]
      omega

/-- The remainder cannot extend a digit run: empty or non-digit-headed. -/
def delimB : List Char → Bool
  | [] => true
  | c :: _ => !c.isDigit

theorem splitDigits_stop (cs : List Char) (h : delimB cs = true) :
    splitDigits cs = ([], cs) := by
  cases cs with
  | nil => rfl
  | cons c t =>
    simp only [delimB, Bool.not_eq_true'] at h
    simp [splitDigits, h]

theorem splitDigits_run (ds : List Char) (hds : ∀ c ∈ ds, c.isDigit = true)
    (rest : List Char) (hrest : delimB rest = true) :
    splitDigits (ds ++ rest) = (ds, rest) := by
  induction ds with
  | nil => simpa using splitDigits_stop rest hrest
  | cons c t ih =>
    have hc : c.isDigit = true := hds c (by simp)
    simp [splitDigits, hc, ih (fun x hx => hds x (by simp [hx]))]

theorem digit_not_minus {c : Char} (h : c.isDigit = true) : c ≠ '-' := by
  rintro rfl
  exact absurd h (by decide)

theorem parseJNum_minus (cs ds r : List Char) (h : splitDigits cs = (ds, r)) :
    parseJNum ('-' :: cs) =
      (if ds.isEmpty then none else some (-(digitsVal ds : Int), r)) := by
  simp [parseJNum, h]

theorem parseJNum_nonminus (c : Char) (cs ds r : List Char) (hc : c ≠ '-')
    (h : splitDigits (c :: cs) = (ds, r)) :
    parseJNum (c :: cs) =
      (if ds.isEmpty then none else some ((digitsVal ds : Int), r)) := by
  rw [parseJNum.eq_def]
  split
  · rename_i heq
    cases heq
    exact absurd rfl hc
  · simp [h]

/-- The number codec round trip: parsing the rendered characters of an
integer recovers it when the remainder cannot extend the digit run. -/
theorem parseJNum_intChars (i : Int) (rest : List Char) (hrest : delimB rest = true) :
    parseJNum (intChars i ++ rest) = some (i, rest) := by
  obtain ⟨c, t, hct, hcd⟩ := natChars_head i.natAbs
  have hsplit : splitDigits (natChars i.natAbs ++ rest) = (c :: t, rest) := by
    rw [splitDigits_run _ (natChars_digits i.natAbs) _ hrest, hct]
  have hv : digitsVal (c :: t) = i.natAbs := by rw [← hct, digitsVal_natChars]
  by_cases hneg : i < 0
  · rw [intChars, if_pos hneg, List.cons_append,
      parseJNum_minus _ _ _ hsplit, if_neg (by simp : ¬((c :: t).isEmpty = true)), hv]
    have h2 : -((i.natAbs : Int)) = i := by omega
    rw [h2]
  · have hsplit2 : splitDigits (c :: (t ++ rest)) = (c :: t, rest) := by
      have h0 := hsplit
      rw [hct] at h0
      rw [← List.cons_append]
      exact h0
    rw [intChars, if_neg hneg, hct, List.cons_append,
      parseJNum_nonminus c _ _ _ (digit_not_minus hcd) hsplit2,
      if_neg (by simp : ¬((c :: t).isEmpty = true)), hv]
    have h2 : ((i.natAbs : Int)) = i := by omega
    rw [h2]

/-! ## String round trip -/

theorem hexCharVal_hexDigitChar (d : Nat) (h : d < 16) :
    hexCharVal (hexDigitChar d) = some d := by
  interval_cases d <;> decide

theorem char_toNat_valid (c : Char) : Nat.isValidChar c.toNat := c.valid

theorem validScalar_toNat (c : Char) : validScalar c.toNat = true := by
  have h := char_toNat_valid c
  rcases h with h | ⟨h1, h2⟩ <;> simp [validScalar] <;> omega

/-- Parsing one escaped character undoes `jsEscapeChar`. -/
theorem parseStrBody_escape (c : Char) (t : List Char) :
    parseStrBody (jsEscapeChar c ++ t) = (parseStrBody t).map (fun p => (c :: p.1, p.2)) := by
  rw [jsEscapeChar]
  by_cases h1 : c = '"'
  · subst h1; simp [parseStrBody]
  rw [if_neg h1]
  by_cases h2 : c = '\\'
  · subst h2; simp [parseStrBody]
  rw [if_neg h2]
  by_cases h3 : c = Char.ofNat 8
  · subst h3; simp [parseStrBody]
  rw [if_neg h3]
  by_cases h4 : c = Char.ofNat 9
  · subst h4; simp [parseStrBody]
  rw [if_neg h4]
  by_cases h5 : c = Char.ofNat 10
  · subst h5; simp [parseStrBody]
  rw [if_neg h5]
  by_cases h6 : c = Char.ofNat 12
  · subst h6; simp [parseStrBody]
  rw [if_neg h6]
  by_cases h7 : c = Char.ofNat 13
  · subst h7; simp [parseStrBody]
  rw [if_neg h7]
  by_cases h8 : c.toNat < 32
  · rw [if_pos h8]
    have hhi : c.toNat / 16 < 16 := by omega
    have hlo : c.toNat % 16 < 16 := by omega
    have hn : ((((hexCharVal '0').getD 0 * 16 + (hexCharVal '0').getD 0) * 16 +
        c.toNat / 16) * 16 + c.toNat % 16) = c.toNat := by
      simp [hexCharVal]
      omega
    simp only [List.cons_append, parseStrBody, hexCharVal_hexDigitChar _ hhi,
      hexCharVal_hexDigitChar _ hlo]
    have h0 : hexCharVal '0' = some 0 := by decide
    rw [h0]
    simp only []
    have hval : ((0 * 16 + 0) * 16 + c.toNat / 16) * 16 + c.toNat % 16 = c.toNat := by omega
    rw [hval, if_pos (validScalar_toNat c), Char.ofNat_toNat]
    simp
  · rw [if_neg h8]
    simp only [List.singleton_append]
    rw [parseStrBody.eq_def]
    split
    · rename_i heq
      cases heq
    · rename_i heq
      cases heq
      exact absurd rfl h1
    · rename_i a b d e heq
      cases heq
      exact absurd rfl h2
    · rename_i e rest' heq
      cases heq
      exact absurd rfl h2
    · rename_i c' rest' heq
      cases heq
      rw [if_neg (by omega)]

/-- Parsing a rendered string body stops exactly at the closing quote. -/
theorem parseStrBody_flat (cs : List Char) (t : List Char) :
    parseStrBody (cs.flatMap jsEscapeChar ++ '"' :: t) = some (cs, t) := by
  induction cs with
  | nil => simp [parseStrBody]
  | cons c rest ih =>
    rw [List.flatMap_cons, List.append_assoc, parseStrBody_escape, ih]
    rfl

/-- The full string-literal round trip, with the quotes. -/
theorem parse_quoted (s : String) (t : List Char) :
    parseStrBody (strBodyChars s ++ '"' :: t) = some (s.data, t) := by
  rw [strBodyChars, parseStrBody_flat]

/-! ## Head-character and whitespace lemmas -/

theorem skipWs_cons (c : Char) (t : List Char) (h : isWsChar c = false) :
    skipWs (c :: t) = c :: t := by
  simp [skipWs, h]

theorem digit_head_facts {c : Char} (h : c.isDigit = true) :
    isWsChar c = false ∧ c ≠ 'n' ∧ c ≠ 't' ∧ c ≠ 'f' ∧ c ≠ '"' ∧ c ≠ '[' ∧ c ≠ '\x7b'
    ∧ c ≠ ']' ∧ c ≠ '\x7d' ∧ c ≠ ',' ∧ c ≠ ':' := by
  have hn : 48 ≤ c.toNat ∧ c.toNat ≤ 57 := by
    simp only [Char.isDigit, decide_eq_true_eq, Bool.and_eq_true, decide_eq_true_iff] at h
    obtain ⟨h1, h2⟩ := h
    exact ⟨h1, h2⟩
  refine ⟨?_, ?_, ?_, ?_, ?_, ?_, ?_, ?_, ?_, ?_, ?_⟩
  · simp only [isWsChar, Bool.or_eq_false_iff, decide_eq_false_iff_not]
    refine ⟨⟨⟨?_, ?_⟩, ?_⟩, ?_⟩ <;> (rintro rfl; revert hn; decide)
  all_goals (rintro rfl; revert hn; decide)

/-- Every rendered value begins with a non-whitespace character that closes
nothing and separates nothing. -/
theorem serVal_head (v : Jval) :
    ∃ c t, serVal v = c :: t ∧ isWsChar c = false ∧ c ≠ ']' ∧ c ≠ '\x7d' ∧ c ≠ ','
      ∧ c ≠ ':' := by
  cases v with
  | null => exact ⟨'n', _, rfl, by decide, by decide, by decide, by decide, by decide⟩
  | bool b =>
    cases b with
    | true => exact ⟨'t', _, rfl, by decide, by decide, by decide, by decide, by decide⟩
    | false => exact ⟨'f', _, rfl, by decide, by decide, by decide, by decide, by decide⟩
  | num n =>
    obtain ⟨c, t, hct, hcd⟩ := natChars_head n.natAbs
    obtain ⟨hws, -, -, -, -, -, -, hrb, hrc, hcm, hco⟩ := digit_head_facts hcd
    by_cases hneg : n < 0
    · refine ⟨'-', natChars n.natAbs, ?_, by decide, by decide, by decide, by decide, by decide⟩
      simp [serVal, intChars, hneg]
    · refine ⟨c, t, ?_, hws, hrb, hrc, hcm, hco⟩
      simp [serVal, intChars, hneg, hct]
  | str s => exact ⟨'"', _, rfl, by decide, by decide, by decide, by decide, by decide⟩
  | arr es => exact ⟨'[', _, rfl, by decide, by decide, by decide, by decide, by decide⟩
  | obj ms => exact ⟨'\x7b', _, rfl, by decide, by decide, by decide, by decide, by decide⟩

theorem serVal_length_pos (v : Jval) : 0 < (serVal v).length := by
  obtain ⟨c, t, hct, -⟩ := serVal_head v
  simp [hct]

theorem skipWs_serVal (v : Jval) (x : List Char) :
    skipWs (serVal v ++ x) = serVal v ++ x := by
  obtain ⟨c, t, hct, hws, -⟩ := serVal_head v
  rw [hct, List.cons_append, skipWs_cons _ _ hws]

/-! ## Object-assembly lemmas (JS property-assignment semantics) -/

theorem alSet_fresh {α : Type} (k : String) (v : α) (acc : List (String × α))
    (h : ∀ kv ∈ acc, kv.1 ≠ k) : alSet k v acc = acc ++ [(k, v)] := by
  induction acc with
  | nil => rfl
  | cons kv rest ih =>
    obtain ⟨k', v'⟩ := kv
    have hne : k' ≠ k := h (k', v') (by simp)
    simp [alSet, hne, ih (fun x hx => h x (by simp [hx]))]

theorem foldl_alSet_fresh (ms : List (String × Jval)) :
    ∀ acc : List (String × Jval),
    (∀ kv ∈ ms, ∀ kv' ∈ acc, kv'.1 ≠ kv.1) → keysDistinct ms = true →
    ms.foldl (fun a kv => alSet kv.1 kv.2 a) acc = acc ++ ms := by
  induction ms with
  | nil => intro acc _ _; simp
  | cons kv rest ih =>
    intro acc hdisj hdist
    obtain ⟨k, v⟩ := kv
    simp only [keysDistinct, Bool.and_eq_true, Bool.not_eq_true',
      List.any_eq_false, decide_eq_false_iff_not] at hdist
    obtain ⟨hnotin, hdist'⟩ := hdist
    rw [List.foldl_cons, alSet_fresh k v acc (fun kv' h' => hdisj (k, v) (by simp) kv' h')]
    rw [ih (acc ++ [(k, v)]) ?_ hdist']
    · simp
    · intro kv2 h2 kv' h'
      rcases List.mem_append.mp h' with hin | hsing
      · exact hdisj kv2 (by simp [h2]) kv' hin
      · simp only [List.mem_singleton] at hsing
        subst hsing
        exact fun he => hnotin kv2 h2 (decide_eq_true he.symm)

/-- `JSON.parse` object assembly is the identity on distinct-key member
lists. -/
theorem mkObj_distinct (ms : List (String × Jval)) (h : keysDistinct ms = true) :
    mkObj ms = ms := by
  rw [mkObj, foldl_alSet_fresh ms [] (by simp) h]
  simp

/-- `{ sender, ...data }` when `data` does not itself have a `sender` key:
the sender property first, then the data properties in order. -/
theorem encodePayload_fresh (sender : String) (data : List (String × Jval))
    (hns : alHasKey "sender" data = false) (hdist : keysDistinct data = true) :
    encodePayload sender data = ("sender", .str sender) :: data := by
  rw [encodePayload, foldl_alSet_fresh data [("sender", Jval.str sender)] ?_ hdist]
  · simp
  · intro kv hkv kv' hkv'
    simp only [List.mem_singleton] at hkv'
    subst hkv'
    simp only [alHasKey, List.any_eq_false, decide_eq_false_iff_not] at hns
    exact fun he => hns kv hkv (decide_eq_true he.symm)

/-! ## Parser bridging lemmas -/

theorem delimB_elemsTail (es : List Jval) (rest : List Char) :
    delimB (serElemsTail es ++ ']' :: rest) = true := by
  cases es <;> simp [serElemsTail, delimB]

theorem delimB_memsTail (ms : List (String × Jval)) (rest : List Char) :
    delimB (serMemsTail ms ++ '\x7d' :: rest) = true := by
  cases ms with
  | nil => simp [serMemsTail, delimB]
  | cons kv t => obtain ⟨k, v⟩ := kv; simp [serMemsTail, delimB]

theorem parseJVal_generic (f : Nat) (c : Char) (t : List Char)
    (hws : isWsChar c = false) (hn : c ≠ 'n') (ht : c ≠ 't') (hf : c ≠ 'f') (hq : c ≠ '"')
    (hbk : c ≠ '[') (hbc : c ≠ '\x7b') :
    parseJVal (f + 1) (c :: t) =
      (if (c = '-' || c.isDigit) then (parseJNum (c :: t)).map (fun p => (.num p.1, p.2))
       else none) := by
  rw [parseJVal.eq_def]
  simp only []
  rw [skipWs_cons c t hws]
  split
  · rename_i heq; rw [List.cons.injEq] at heq; exact absurd heq.1 hn
  · rename_i heq; rw [List.cons.injEq] at heq; exact absurd heq.1 ht
  · rename_i heq; rw [List.cons.injEq] at heq; exact absurd heq.1 hf
  · rename_i heq; rw [List.cons.injEq] at heq; exact absurd heq.1 hq
  · rename_i heq; rw [List.cons.injEq] at heq; exact absurd heq.1 hbk
  · rename_i heq; rw [List.cons.injEq] at heq; exact absurd heq.1 hbc
  · rename_i c' rest' heq
    rw [List.cons.injEq] at heq
    obtain ⟨rfl, rfl⟩ := heq
    rfl
  · rename_i heq; cases heq

theorem parseJVal_num (n : Int) (f : Nat) (rest : List Char) (hrest : delimB rest = true) :
    parseJVal (f + 1) (intChars n ++ rest) = some (.num n, rest) := by
  have hp := parseJNum_intChars n rest hrest
  by_cases hneg : n < 0
  · rw [intChars, if_pos hneg, List.cons_append] at hp ⊢
    rw [parseJVal_generic f '-' _ (by decide) (by decide) (by decide) (by decide) (by decide)
        (by decide) (by decide), if_pos (by decide), hp]
    rfl
  · obtain ⟨c, t, hct, hcd⟩ := natChars_head n.natAbs
    obtain ⟨hws, hn', ht', hf', hq', hbk', hbc', -, -, -, -⟩ := digit_head_facts hcd
    rw [intChars, if_neg hneg, hct, List.cons_append] at hp ⊢
    rw [parseJVal_generic f c _ hws hn' ht' hf' hq' hbk' hbc', if_pos (by simp [hcd]), hp]
    rfl

theorem parseJVal_arr_cons (f : Nat) (e : Jval) (es : List Jval) (x : List Char) :
    parseJVal (f + 1) ('[' :: (serElems (e :: es) ++ x)) =
      (parseJElems f (serElems (e :: es) ++ x)).map (fun p => (.arr p.1, p.2)) := by
  obtain ⟨c, t, hct, hws, hrb, -⟩ := serVal_head e
  have hlist : serElems (e :: es) ++ x = c :: (t ++ (serElemsTail es ++ x)) := by
    simp [serElems, hct]
  rw [parseJVal.eq_def]
  simp only []
  rw [skipWs_cons '[' _ (by decide)]
  split
  · rename_i heq; exact absurd heq (by simp)
  · rename_i heq; exact absurd heq (by simp)
  · rename_i heq; exact absurd heq (by simp)
  · rename_i heq; exact absurd heq (by simp)
  · rename_i rest' heq
    rw [List.cons.injEq] at heq
    obtain ⟨-, heq⟩ := heq
    subst heq
    rw [hlist, skipWs_cons c _ hws]
    split
    · rename_i heq2
      rw [List.cons.injEq] at heq2
      exact absurd heq2.1 hrb
    · rfl
  · rename_i heq; exact absurd heq (by simp)
  · rename_i hkn hkt hkf hkq hkb hkc heq
    rw [List.cons.injEq] at heq
    exact absurd heq.1.symm hkb
  · rename_i heq; cases heq

theorem parseJVal_obj_cons (f : Nat) (k : String) (v : Jval) (ms : List (String × Jval))
    (x : List Char) :
    parseJVal (f + 1) ('\x7b' :: (serMems ((k, v) :: ms) ++ x)) =
      (parseJMems f (serMems ((k, v) :: ms) ++ x)).map (fun p => (.obj (mkObj p.1), p.2)) := by
  have hlist : serMems ((k, v) :: ms) ++ x =
      '"' :: (strBodyChars k ++ '"' :: ':' :: (serVal v ++ (serMemsTail ms ++ x))) := by
    simp [serMems, quotedChars]
  rw [parseJVal.eq_def]
  simp only []
  rw [skipWs_cons '\x7b' _ (by decide)]
  split
  · rename_i heq; exact absurd heq (by simp)
  · rename_i heq; exact absurd heq (by simp)
  · rename_i heq; exact absurd heq (by simp)
  · rename_i heq; exact absurd heq (by simp)
  · rename_i heq; exact absurd heq (by simp)
  · rename_i rest' heq
    rw [List.cons.injEq] at heq
    obtain ⟨-, heq⟩ := heq
    subst heq
    rw [hlist, skipWs_cons '"' _ (by decide)]
    split
    · rename_i heq2; exact absurd heq2 (by simp)
    · rfl
  · rename_i hkn hkt hkf hkq hkb hkc heq
    rw [List.cons.injEq] at heq
    exact absurd heq.1.symm hkc
  · rename_i heq; cases heq

theorem parseJElems_step (f : Nat) (cs : List Char) :
    parseJElems (f + 1) cs =
      (parseJVal f cs).bind (fun q =>
        match skipWs q.2 with
        | ',' :: r2 => (parseJElems f r2).map (fun p => (q.1 :: p.1, p.2))
        | ']' :: r2 => some ([q.1], r2)
        | _ => none) := rfl

theorem parseJMems_step (f : Nat) (cs : List Char) :
    parseJMems (f + 1) cs =
      (match skipWs cs with
       | '"' :: r0 =>
         (parseStrBody r0).bind (fun q =>
           match skipWs q.2 with
           | ':' :: r2 =>
             (parseJVal f r2).bind (fun w =>
               match skipWs w.2 with
               | ',' :: r4 => (parseJMems f r4).map (fun p => ((⟨q.1⟩, w.1) :: p.1, p.2))
               | '\x7d' :: r4 => some ([(⟨q.1⟩, w.1)], r4)
               | _ => none)
           | _ => none)
       | _ => none) := rfl

mutual
theorem rt_val : ∀ (v : Jval) (fuel : Nat) (rest : List Char),
    wfJ v = true → (serVal v).length < fuel → delimB rest = true →
    parseJVal fuel (serVal v ++ rest) = some (v, rest)
  | .null, fuel, rest, _, hf, _ => by
    cases fuel with
    | zero => exact absurd hf (by omega)
    | succ f => simp [serVal, parseJVal, skipWs, isWsChar]
  | .bool b, fuel, rest, _, hf, _ => by
    cases fuel with
    | zero => exact absurd hf (by omega)
    | succ f => cases b <;> simp [serVal, parseJVal, skipWs, isWsChar]
  | .num n, fuel, rest, _, hf, hrest => by
    cases fuel with
    | zero => exact absurd hf (by omega)
    | succ f => exact parseJVal_num n f rest hrest
  | .str s, fuel, rest, _, hf, _ => by
    cases fuel with
    | zero => exact absurd hf (by omega)
    | succ f =>
      have harg : serVal (.str s) ++ rest = '"' :: (strBodyChars s ++ ('"' :: rest)) := by
        simp [serVal, quotedChars]
      rw [harg]
      simp [parseJVal, skipWs, isWsChar, parse_quoted]
  | .arr [], fuel, rest, _, hf, _ => by
    cases fuel with
    | zero => exact absurd hf (by omega)
    | succ f => simp [serVal, serElems, parseJVal, skipWs, isWsChar]
  | .arr (e :: es), fuel, rest, hwf, hf, hrest => by
    cases fuel with
    | zero => exact absurd hf (by omega)
    | succ f =>
      have harg : serVal (.arr (e :: es)) ++ rest
          = '[' :: (serElems (e :: es) ++ (']' :: rest)) := by
        simp [serVal]
      have hfe : (serElems (e :: es)).length + 1 < f := by
        simp only [serVal, List.length_cons, List.length_append, List.length_singleton] at hf
        omega
      have hkey := rt_elems e es f rest (by simpa [wfJ] using hwf) hfe hrest
      rw [harg, parseJVal_arr_cons f e es (']' :: rest), hkey]
      rfl
  | .obj [], fuel, rest, _, hf, _ => by
    cases fuel with
    | zero => exact absurd hf (by omega)
    | succ f => simp [serVal, serMems, parseJVal, skipWs, isWsChar, mkObj]
  | .obj ((k, v) :: ms), fuel, rest, hwf, hf, hrest => by
    cases fuel with
    | zero => exact absurd hf (by omega)
    | succ f =>
      have harg : serVal (.obj ((k, v) :: ms)) ++ rest
          = '\x7b' :: (serMems ((k, v) :: ms) ++ ('\x7d' :: rest)) := by
        simp [serVal]
      have hwf' : keysDistinct ((k, v) :: ms) = true ∧ wfMems ((k, v) :: ms) = true := by
        simpa [wfJ, Bool.and_eq_true] using hwf
      have hfm : (serMems ((k, v) :: ms)).length + 1 < f := by
        simp only [serVal, List.length_cons, List.length_append, List.length_singleton] at hf
        omega
      have hkey := rt_mems k v ms f rest hwf'.2 hfm hrest
      rw [harg, parseJVal_obj_cons f k v ms ('\x7d' :: rest), hkey]
      simp [mkObj_distinct _ hwf'.1]
termination_by v _ _ _ _ _ => sizeOf v

theorem rt_elems : ∀ (e : Jval) (es : List Jval) (fuel : Nat) (rest : List Char),
    wfArr (e :: es) = true → (serElems (e :: es)).length + 1 < fuel → delimB rest = true →
    parseJElems fuel (serElems (e :: es) ++ ']' :: rest) = some (e :: es, rest)
  | e, [], fuel, rest, hwf, hf, hrest => by
    cases fuel with
    | zero => exact absurd hf (by omega)
    | succ f =>
      have hwfe : wfJ e = true := by
        simpa [wfArr, Bool.and_eq_true] using hwf
      have harg : serElems (e :: []) ++ ']' :: rest = serVal e ++ (']' :: rest) := by
        simp [serElems, serElemsTail]
      have hfe : (serVal e).length < f := by
        simp only [serElems, serElemsTail, List.length_append, List.length_nil] at hf
        omega
      have hv := rt_val e f (']' :: rest) hwfe hfe (by simp [delimB])
      rw [harg, parseJElems_step, hv]
      simp [skipWs, isWsChar]
  | e, x :: xs, fuel, rest, hwf, hf, hrest => by
    cases fuel with
    | zero => exact absurd hf (by omega)
    | succ f =>
      have hwfe : wfJ e = true ∧ wfArr (x :: xs) = true := by
        simpa [wfArr, Bool.and_eq_true] using hwf
      have harg : serElems (e :: x :: xs) ++ ']' :: rest
          = serVal e ++ (serElemsTail (x :: xs) ++ ']' :: rest) := by
        simp [serElems]
      have hfe : (serVal e).length < f := by
        simp only [serElems, List.length_append] at hf
        omega
      have hv := rt_val e f (serElemsTail (x :: xs) ++ ']' :: rest) hwfe.1 hfe
        (delimB_elemsTail (x :: xs) rest)
      have hfx : (serElems (x :: xs)).length + 1 < f := by
        have := serVal_length_pos e
        simp only [serElems, serElemsTail, List.length_append, List.length_cons] at hf ⊢
        omega
      have hkey := rt_elems x xs f rest hwfe.2 hfx hrest
      have hcomma : serElemsTail (x :: xs) ++ ']' :: rest
          = ',' :: (serElems (x :: xs) ++ ']' :: rest) := by
        simp [serElemsTail, serElems]
      rw [harg, parseJElems_step, hv]
      simp only [Option.some_bind]
      rw [hcomma, skipWs_cons ',' _ (by decide)]
      simp only []
      rw [hkey]
      rfl
termination_by e es _ _ _ _ _ => sizeOf (e :: es)

theorem rt_mems : ∀ (k : String) (v : Jval) (ms : List (String × Jval)) (fuel : Nat)
    (rest : List Char),
    wfMems ((k, v) :: ms) = true → (serMems ((k, v) :: ms)).length + 1 < fuel →
    delimB rest = true →
    parseJMems fuel (serMems ((k, v) :: ms) ++ '\x7d' :: rest) = some ((k, v) :: ms, rest)
  | k, v, [], fuel, rest, hwf, hf, hrest => by
    cases fuel with
    | zero => exact absurd hf (by omega)
    | succ f =>
      have hwfv : wfJ v = true := by
        simpa [wfMems, Bool.and_eq_true] using hwf
      have harg : serMems ((k, v) :: []) ++ '\x7d' :: rest
          = '"' :: (strBodyChars k ++ '"' :: (':' :: (serVal v ++ ('\x7d' :: rest)))) := by
        simp [serMems, serMemsTail, quotedChars]
      have hfv : (serVal v).length < f := by
        simp only [serMems, serMemsTail, quotedChars, List.length_append, List.length_cons] at hf
        omega
      have hv := rt_val v f ('\x7d' :: rest) hwfv hfv (by simp [delimB])
      rw [harg, parseJMems_step]
      rw [skipWs_cons '"' _ (by decide)]
      simp only []
      rw [parse_quoted k (':' :: (serVal v ++ ('\x7d' :: rest)))]
      simp only [Option.some_bind]
      rw [skipWs_cons ':' _ (by decide)]
      simp only []
      rw [hv]
      simp only [Option.some_bind]
      rw [skipWs_cons '\x7d' _ (by decide)]
      rfl
  | k, v, (k2, v2) :: ms2, fuel, rest, hwf, hf, hrest => by
    cases fuel with
    | zero => exact absurd hf (by omega)
    | succ f =>
      have hwfv : wfJ v = true ∧ wfMems ((k2, v2) :: ms2) = true := by
        simpa [wfMems, Bool.and_eq_true] using hwf
      have harg : serMems ((k, v) :: (k2, v2) :: ms2) ++ '\x7d' :: rest
          = '"' :: (strBodyChars k ++ '"' ::
              (':' :: (serVal v ++ (serMemsTail ((k2, v2) :: ms2) ++ '\x7d' :: rest)))) := by
        simp [serMems, quotedChars]
      have hfv : (serVal v).length < f := by
        simp only [serMems, quotedChars, List.length_append, List.length_cons] at hf
        omega
      have hv := rt_val v f (serMemsTail ((k2, v2) :: ms2) ++ '\x7d' :: rest) hwfv.1 hfv
        (delimB_memsTail ((k2, v2) :: ms2) rest)
      have hfm2 : (serMems ((k2, v2) :: ms2)).length + 1 < f := by
        have := serVal_length_pos v
        simp only [serMems, serMemsTail, quotedChars, List.length_append, List.length_cons] at hf ⊢
        omega
      have hkey := rt_mems k2 v2 ms2 f rest hwfv.2 hfm2 hrest
      have hcomma : serMemsTail ((k2, v2) :: ms2) ++ '\x7d' :: rest
          = ',' :: (serMems ((k2, v2) :: ms2) ++ '\x7d' :: rest) := by
        simp [serMemsTail, serMems]
      rw [harg, parseJMems_step]
      rw [skipWs_cons '"' _ (by decide)]
      simp only []
      rw [parse_quoted k (':' :: (serVal v ++ (serMemsTail ((k2, v2) :: ms2) ++ '\x7d' :: rest)))]
      simp only [Option.some_bind]
      rw [skipWs_cons ':' _ (by decide)]
      simp only []
      rw [hv]
      simp only [Option.some_bind]
      rw [hcomma, skipWs_cons ',' _ (by decide)]
      simp only []
      rw [hkey]
      rfl
termination_by k v ms _ _ _ _ _ => sizeOf ((k, v) :: ms)
end

/-- Top-level `JSON.parse` inverts `JSON.stringify` on well-formed values. -/
theorem jsonParseChars_ser (v : Jval) (hwf : wfJ v = true) :
    jsonParseChars (serVal v) = some v := by
  have h := rt_val v ((serVal v).length + 1) [] hwf (by omega) rfl
  rw [List.append_nil] at h
  unfold jsonParseChars
  rw [h]
  rfl

/-! ## UTF-8 round trip -/

theorem utf8EncChar_cons (c : Char) : ∃ b0 t, utf8EncChar c = b0 :: t := by
  rw [utf8EncChar]
  by_cases h1 : c.toNat < 0x80
  · rw [if_pos h1]; exact ⟨_, _, rfl⟩
  · rw [if_neg h1]
    by_cases h2 : c.toNat < 0x800
    · rw [if_pos h2]; exact ⟨_, _, rfl⟩
    · rw [if_neg h2]
      by_cases h3 : c.toNat < 0x10000
      · rw [if_pos h3]; exact ⟨_, _, rfl⟩
      · rw [if_neg h3]; exact ⟨_, _, rfl⟩

theorem utf8DecStep_enc (c : Char) (bs : List Nat) :
    utf8DecStep (utf8EncChar c ++ bs) = some (c, bs) := by
  have hofc := Char.ofNat_toNat c
  by_cases h1 : c.toNat < 0x80
  · rw [utf8EncChar, if_pos h1, List.singleton_append, utf8DecStep.eq_def]
    simp only []
    rw [if_pos h1, hofc]
  · by_cases h2 : c.toNat < 0x800
    · rw [utf8EncChar, if_neg h1, if_pos h2, List.cons_append, List.cons_append,
        List.nil_append, utf8DecStep.eq_def]
      simp only []
      rw [if_neg (by omega), if_neg (by omega), if_pos (by omega)]
      rw [if_pos (by omega)]
      have hn : (0xc0 + c.toNat / 0x40 - 0xc0) * 0x40 + (0x80 + c.toNat % 0x40 - 0x80)
          = c.toNat := by omega
      rw [hn, hofc]
    · by_cases h3 : c.toNat < 0x10000
      · rw [utf8EncChar, if_neg h1, if_neg h2, if_pos h3, List.cons_append, List.cons_append,
          List.cons_append, List.nil_append, utf8DecStep.eq_def]
        simp only []
        rw [if_neg (by omega), if_neg (by omega), if_neg (by omega), if_pos (by omega)]
        rw [if_pos (by omega)]
        have hn : (0xe0 + c.toNat / 0x1000 - 0xe0) * 0x1000
            + (0x80 + c.toNat / 0x40 % 0x40 - 0x80) * 0x40 + (0x80 + c.toNat % 0x40 - 0x80)
            = c.toNat := by omega
        rw [hn, if_pos (validScalar_toNat c), hofc]
      · have hub : c.toNat < 0x110000 := by
          rcases char_toNat_valid c with h | ⟨-, h⟩ <;> omega
        rw [utf8EncChar, if_neg h1, if_neg h2, if_neg h3, List.cons_append, List.cons_append,
          List.cons_append, List.cons_append, List.nil_append, utf8DecStep.eq_def]
        simp only []
        rw [if_neg (by omega), if_neg (by omega), if_neg (by omega), if_neg (by omega),
          if_pos (by omega)]
        rw [if_pos (by omega)]
        have d1 := Nat.div_add_mod c.toNat 0x40
        have d2 := Nat.div_add_mod (c.toNat / 0x40) 0x40
        have d3 := Nat.div_add_mod (c.toNat / 0x1000) 0x40
        have d4 : c.toNat / 0x40 / 0x40 = c.toNat / 0x1000 := by
          rw [Nat.div_div_eq_div_mul]
        have d5 : c.toNat / 0x1000 / 0x40 = c.toNat / 0x40000 := by
          rw [Nat.div_div_eq_div_mul]
        have hn : (0xf0 + c.toNat / 0x40000 - 0xf0) * 0x40000
            + (0x80 + c.toNat / 0x1000 % 0x40 - 0x80) * 0x1000
            + (0x80 + c.toNat / 0x40 % 0x40 - 0x80) * 0x40 + (0x80 + c.toNat % 0x40 - 0x80)
            = c.toNat := by omega
        rw [hn, if_pos (validScalar_toNat c), hofc]

theorem utf8Dec_flat : ∀ (cs : List Char) (fuel : Nat), cs.length < fuel →
    utf8Dec fuel (cs.flatMap utf8EncChar) = some cs
  | [], fuel, h => by
    cases fuel with
    | zero => exact absurd h (by omega)
    | succ f => simp [utf8Dec]
  | c :: rest, fuel, h => by
    cases fuel with
    | zero => exact absurd h (by omega)
    | succ f =>
      obtain ⟨b0, t, henc⟩ := utf8EncChar_cons c
      have hstep := utf8DecStep_enc c (rest.flatMap utf8EncChar)
      rw [henc, List.cons_append] at hstep
      rw [List.flatMap_cons, henc, List.cons_append, utf8Dec, hstep]
      simp only []
      rw [utf8Dec_flat rest f (by simpa using h)]
      rfl

/-- The byte length of the UTF-8 encoding is at least the character count. -/
theorem utf8EncChar_length_pos (c : Char) : 0 < (utf8EncChar c).length := by
  obtain ⟨b0, t, henc⟩ := utf8EncChar_cons c
  simp [henc]

theorem flatMap_enc_length (cs : List Char) :
    cs.length ≤ (cs.flatMap utf8EncChar).length := by
  induction cs with
  | nil => simp
  | cons c rest ih =>
    rw [List.flatMap_cons, List.length_append, List.length_cons]
    have := utf8EncChar_length_pos c
    omega

/-- Decoding the UTF-8 bytes of a string recovers its characters. -/
theorem utf8DecBytes_utf8Enc (s : String) : utf8DecBytes (utf8Enc s) = some s.data := by
  rw [utf8DecBytes, utf8Enc]
  exact utf8Dec_flat s.data _ (by have := flatMap_enc_length s.data; omega)

/-- The shortest-form check passes on a canonical encoding. -/
theorem utf8DecStepS_enc (c : Char) (bs : List Nat) :
    utf8DecStepS (utf8EncChar c ++ bs) = some (c, bs) := by
  unfold utf8DecStepS
  rw [utf8DecStep_enc]
  simp [List.length_append]

theorem utf8Lossy_flat : ∀ (cs : List Char) (fuel : Nat), cs.length < fuel →
    utf8Lossy fuel (cs.flatMap utf8EncChar) = cs
  | [], fuel, h => by
    cases fuel with
    | zero => exact absurd h (by omega)
    | succ f => simp [utf8Lossy]
  | c :: rest, fuel, h => by
    cases fuel with
    | zero => exact absurd h (by omega)
    | succ f =>
      obtain ⟨b0, t, henc⟩ := utf8EncChar_cons c
      have hstep := utf8DecStepS_enc c (rest.flatMap utf8EncChar)
      rw [henc, List.cons_append] at hstep
      rw [List.flatMap_cons, henc, List.cons_append, utf8Lossy, hstep]
      simp only []
      rw [utf8Lossy_flat rest f (by simpa using h)]

/-- Lossy decoding agrees with the strict decoder on well-formed bytes,
in particular on every encoded string. -/
theorem utf8LossyBytes_utf8Enc (s : String) : utf8LossyBytes (utf8Enc s) = s.data := by
  rw [utf8LossyBytes, utf8Enc]
  exact utf8Lossy_flat s.data _ (by have := flatMap_enc_length s.data; omega)

/-! ## Wire-codec round trip -/

theorem valid_code_le (code : Nat) (h : isValidSignal code = true) : code ≤ 0xffff := by
  simp only [isValidSignal, signalNamesList, List.any_eq_true, List.mem_cons,
    decide_eq_true_eq, List.not_mem_nil] at h
  rcases h with ⟨p, hp, hc⟩
  rcases hp with h|h|h|h|h|h|h|h|h|h <;> (try subst h) <;> simp_all <;> omega

/-- `decode` of a well-formed header plus payload reduces to the payload
pipeline, recovering every header field. -/
theorem decode_concat (st ver len ts : Nat) (payload : List Nat)
    (hlen : len ≤ 0xffffffff) (hplen : len = payload.length) :
    decode (writeU16 st ++ writeU16 ver ++ writeU32 len ++ writeU32 ts ++ payload) =
      (match payloadJson payload with
       | none => none
       | some p => (ensureSender p).map (fun q =>
           { signalType := st / 256 * 256 + st % 256, version := ver / 256 * 256 + ver % 256,
             timestamp := ts, payload := q })) := by
  have hbuf : writeU16 st ++ writeU16 ver ++ writeU32 len ++ writeU32 ts ++ payload
      = st / 256 :: st % 256 :: ver / 256 :: ver % 256
        :: len / 16777216 :: len / 65536 % 256 :: len / 256 % 256 :: len % 256
        :: ts / 16777216 :: ts / 65536 % 256 :: ts / 256 % 256 :: ts % 256 :: payload := by
    simp [writeU16, writeU32]
  rw [hbuf]
  have hlenbuf : (st / 256 :: st % 256 :: ver / 256 :: ver % 256
      :: len / 16777216 :: len / 65536 % 256 :: len / 256 % 256 :: len % 256
      :: ts / 16777216 :: ts / 65536 % 256 :: ts / 256 % 256 :: ts % 256 :: payload).length
      = 12 + payload.length := by
    simp
    omega
  have hr4 : readU32 (st / 256 :: st % 256 :: ver / 256 :: ver % 256
      :: len / 16777216 :: len / 65536 % 256 :: len / 256 % 256 :: len % 256
      :: ts / 16777216 :: ts / 65536 % 256 :: ts / 256 % 256 :: ts % 256 :: payload) 4
      = payload.length := by
    show len / 16777216 * 16777216 + len / 65536 % 256 * 65536 + len / 256 % 256 * 256
      + len % 256 = payload.length
    omega
  have hr8 : readU32 (st / 256 :: st % 256 :: ver / 256 :: ver % 256
      :: len / 16777216 :: len / 65536 % 256 :: len / 256 % 256 :: len % 256
      :: ts / 16777216 :: ts / 65536 % 256 :: ts / 256 % 256 :: ts % 256 :: payload) 8
      = ts := by
    show ts / 16777216 * 16777216 + ts / 65536 % 256 * 65536 + ts / 256 % 256 * 256
      + ts % 256 = ts
    omega
  have hslice : payloadSlice (st / 256 :: st % 256 :: ver / 256 :: ver % 256
      :: len / 16777216 :: len / 65536 % 256 :: len / 256 % 256 :: len % 256
      :: ts / 16777216 :: ts / 65536 % 256 :: ts / 256 % 256 :: ts % 256 :: payload)
      payload.length = payload := by
    show List.take payload.length payload = payload
    simp
  simp only [decode, hlenbuf, hr4, hr8, hslice]
  rw [if_neg (by omega), if_neg (by omega)]
  rfl

/-- The payload pipeline on an encoded JSON value: UTF-8 decode then
`JSON.parse` recovers the value. -/
theorem payloadJson_enc (v : Jval) (hwf : wfJ v = true) :
    payloadJson (utf8Enc (jsStringify v)) = some v := by
  rw [payloadJson, utf8LossyBytes_utf8Enc]
  exact jsonParseChars_ser v hwf

/-- Distinct keys and well-formed members for the `{sender, ...data}`
object, from the hypotheses on `data`. -/
theorem wf_payload_obj (sender : String) (data : List (String × Jval))
    (hnosender : alHasKey "sender" data = false) (hwf : wfJ (.obj data) = true) :
    wfJ (.obj (("sender", Jval.str sender) :: data)) = true := by
  simp only [wfJ, Bool.and_eq_true] at hwf ⊢
  refine ⟨?_, ?_⟩
  · simp only [keysDistinct, Bool.and_eq_true, Bool.not_eq_true', alHasKey] at hwf ⊢
    exact ⟨hnosender, hwf.1⟩
  · simp only [wfMems, wfJ, Bool.and_eq_true]
    exact ⟨trivial, hwf.2⟩

/-- C1 counterexample: the round trip does not reproduce the sender.
With the empty sender, decode's falsy-sender default rewrites it to
"unknown"; and a "sender" key inside the data map overrides the sender
argument in the spread, so "alice" comes back as "bob". -/
theorem roundtrip_sender_cex :
    (((encode 0xd0 "" [] 0).bind decode).map (fun d => d.payload)
        = some (.obj [("sender", Jval.str "unknown")]))
    ∧ ("unknown" : String) ≠ ""
    ∧ (((encode 0xd0 "alice" [("sender", Jval.str "bob")] 0).bind decode).map
          (fun d => d.payload)
        = some (.obj [("sender", Jval.str "bob")]))
    ∧ ("bob" : String) ≠ "alice" :=
  ⟨rfl, by decide, rfl, by decide⟩

/-- C1 (amended): for every valid signal code, every TRUTHY (non-empty)
sender, and every well-formed payload map WITHOUT its own "sender" key
(within the u32 length and timestamp ranges of the header), decode of
encode returns the same code, the protocol version, the send time in
whole seconds, and the payload object holding the sender followed by
every data field unchanged. -/
theorem encode_decode_roundtrip (code : Nat) (sender : String)
    (data : List (String × Jval)) (now : Nat)
    (hcode : isValidSignal code = true)
    (hsender : sender ≠ "")
    (hnosender : alHasKey "sender" data = false)
    (hwf : wfJ (.obj data) = true)
    (hlen : (utf8Enc (jsStringify (.obj (encodePayload sender data)))).length ≤ 0xffffffff)
    (hnow : now / 1000 ≤ 0xffffffff) :
    (encode code sender data now).bind decode =
      some { signalType := code, version := PROTOCOL_VERSION, timestamp := now / 1000,
             payload := .obj (("sender", Jval.str sender) :: data) } := by
  have hcle := valid_code_le code hcode
  have hkd : keysDistinct data = true := by
    have h := hwf
    simp only [wfJ, Bool.and_eq_true] at h
    exact h.1
  have hep : encodePayload sender data = ("sender", Jval.str sender) :: data :=
    encodePayload_fresh sender data hnosender hkd
  have hwfo : wfJ (Jval.obj (("sender", Jval.str sender) :: data)) = true :=
    wf_payload_obj sender data hnosender hwf
  simp only [encode]
  rw [if_pos ⟨hcle, hlen, hnow⟩, Option.some_bind,
    decode_concat code PROTOCOL_VERSION _ (now / 1000) _ hlen rfl, hep,
    payloadJson_enc _ hwfo]
  have hget : alGet "sender" (("sender", Jval.str sender) :: data)
      = some (Jval.str sender) := by
    simp [alGet]
  have hfal : jsFalsy (alGet "sender" (("sender", Jval.str sender) :: data)) = false := by
    rw [hget]
    simpa [jsFalsy] using hsender
  simp only [ensureSender, hfal, Bool.false_eq_true, if_false, Option.map_some',
    Option.some.injEq, DecodedSignal.mk.injEq, eq_self_iff_true, and_true]
  refine ⟨by omega, by decide⟩

theorem encode_decode_roundtrip_witness :
    (encode 0xd0 "alice" [("x", Jval.str "y")] 5000).bind decode =
      some { signalType := 0xd0, version := PROTOCOL_VERSION, timestamp := 5,
             payload := .obj [("sender", Jval.str "alice"), ("x", Jval.str "y")] } :=
  encode_decode_roundtrip 0xd0 "alice" [("x", Jval.str "y")] 5000
    (by decide) (by decide) rfl rfl (by decide) (by decide)

/-- C2 counterexample: a buffer whose trailing payload bytes are NOT
valid JSON — the byte 0xff makes them ill-formed even as UTF-8, so no
JSON text has these bytes — still decodes to a Signal, not to invalid:
toString('utf8') substitutes U+FFFD for the bad byte, the substituted
text parses as an object, and the sender default then applies. -/
theorem nonjson_accept_cex :
    utf8DecBytes (payloadSlice
        [0, 0xd0, 1, 0, 0, 0, 0, 9, 0, 0, 0, 0,
         0x7b, 0x22, 0x61, 0x22, 0x3a, 0x22, 0xff, 0x22, 0x7d] 9) = none
    ∧ decode
        [0, 0xd0, 1, 0, 0, 0, 0, 9, 0, 0, 0, 0,
         0x7b, 0x22, 0x61, 0x22, 0x3a, 0x22, 0xff, 0x22, 0x7d] =
      some { signalType := 0xd0, version := PROTOCOL_VERSION, timestamp := 0,
             payload := .obj [("a", Jval.str "�"), ("sender", Jval.str "unknown")] } :=
  ⟨rfl, rfl⟩

/-- C2 (amended): decode is total and never throws — in the embedding it
is a function into Option with every failure path returning none, as the
source wraps the parse in try/catch — and it returns invalid on every
buffer shorter than 12 bytes and on every buffer where 12 plus the
declared payload length exceeds the actual byte count. Non-JSON trailing
bytes, however, are NOT all rejected: the UTF-8 stage never fails but
substitutes U+FFFD, and the substituted text can parse (see the
counterexample), so only buffers whose substituted payload text fails
JSON.parse are rejected at the payload stage. -/
theorem decode_rejects (buffer : List Nat) :
    (buffer.length < 12 → decode buffer = none)
    ∧ (buffer.length < 12 + readU32 buffer 4 → decode buffer = none) := by
  refine ⟨fun h => ?_, fun h => ?_⟩ <;> simp only [decode]
  · rw [if_pos h]
  · by_cases h12 : buffer.length < 12
    · rw [if_pos h12]
    · rw [if_neg h12, if_pos h]

theorem decode_rejects_witness :
    decode [1, 2, 3] = none
    ∧ decode [0, 0xd0, 1, 0, 0, 0, 0, 5, 0, 0, 0, 0] = none :=
  ⟨(decode_rejects [1, 2, 3]).1 (by decide),
   (decode_rejects [0, 0xd0, 1, 0, 0, 0, 0, 5, 0, 0, 0, 0]).2 (by decide)⟩

/-- C10: the sender default fires on a falsy sender field, not only an
absent one. A payload encoded with the empty-string sender carries
"sender":"" in its JSON, yet decodes with sender "unknown". -/
theorem decode_sender_unknown (code : Nat) (data : List (String × Jval)) (now : Nat)
    (hcode : isValidSignal code = true)
    (hnosender : alHasKey "sender" data = false)
    (hwf : wfJ (.obj data) = true)
    (hlen : (utf8Enc (jsStringify (.obj (encodePayload "" data)))).length ≤ 0xffffffff)
    (hnow : now / 1000 ≤ 0xffffffff) :
    (encode code "" data now).bind decode =
      some { signalType := code, version := PROTOCOL_VERSION, timestamp := now / 1000,
             payload := .obj (("sender", Jval.str "unknown") :: data) } := by
  have hcle := valid_code_le code hcode
  have hkd : keysDistinct data = true := by
    have h := hwf
    simp only [wfJ, Bool.and_eq_true] at h
    exact h.1
  have hep : encodePayload "" data = ("sender", Jval.str "") :: data :=
    encodePayload_fresh "" data hnosender hkd
  have hwfo : wfJ (Jval.obj (("sender", Jval.str "") :: data)) = true :=
    wf_payload_obj "" data hnosender hwf
  simp only [encode]
  rw [if_pos ⟨hcle, hlen, hnow⟩, Option.some_bind,
    decode_concat code PROTOCOL_VERSION _ (now / 1000) _ hlen rfl, hep,
    payloadJson_enc _ hwfo]
  have hget : alGet "sender" (("sender", Jval.str "") :: data)
      = some (Jval.str "") := by
    simp [alGet]
  have hfal : jsFalsy (alGet "sender" (("sender", Jval.str "") :: data)) = true := by
    rw [hget]
    simp [jsFalsy]
  have hset : alSet "sender" (Jval.str "unknown") (("sender", Jval.str "") :: data)
      = ("sender", Jval.str "unknown") :: data := by
    simp [alSet]
  simp only [ensureSender, hfal, if_true, hset, Option.map_some',
    Option.some.injEq, DecodedSignal.mk.injEq, eq_self_iff_true, and_true]
  refine ⟨by omega, by decide⟩

theorem decode_sender_unknown_witness :
    (encode 0xd0 "" [("x", Jval.str "y")] 5000).bind decode =
      some { signalType := 0xd0, version := PROTOCOL_VERSION, timestamp := 5,
             payload := .obj [("sender", Jval.str "unknown"), ("x", Jval.str "y")] } :=
  decode_sender_unknown 0xd0 [("x", Jval.str "y")] 5000
    (by decide) rfl rfl (by decide) (by decide)
